import Mathlib

/-!
Shallow embedding of the document content-generation and chat-editing
pipeline of the backend (FastAPI + SQLAlchemy funding-application
assistant).  The definitions below are translated from
`backend/app/routers/documents.py` and `backend/app/template_resolver.py`;
Python strings are modelled as `List Char`, Python dicts with optional
keys as structures with `Option` fields, and the LLM/text-generation
capability as an explicit oracle parameter.
-/

namespace Innovo

/-- Python strings are modelled as lists of characters. -/
abbrev PyStr := List Char

/-- Python `\s` / `str.strip()` whitespace, restricted to the ASCII
whitespace characters (space, tab, newline, carriage return, vertical
tab, form feed) that can occur in the section ids and chat messages
handled by this pipeline. -/
def isPySpace (c : Char) : Bool :=
  c = ' ' || c = '\t' || c = '\n' || c = '\r' || c = '\x0b' || c = '\x0c'

/-- Python `str.strip()`: drop whitespace from both ends. -/
def pyStrip (s : PyStr) : PyStr :=
  (s.dropWhile isPySpace).rdropWhile isPySpace

/-- length of `dropWhile` never exceeds the original length. -/
theorem length_dropWhile_le (p : Char → Bool) (l : List Char) :
    (l.dropWhile p).length ≤ l.length := by
  induction l with
  | nil => simp
  | cons a l ih =>
    rw [List.dropWhile_cons]
    split
    · exact Nat.le_succ_of_le ih
    · exact Nat.le_refl _

/-- Scanner for `re.sub(r'\s*\.\s*', '.', s)` from `_normalize_section_id`.
The regex replaces every dot together with the whitespace directly around
it by a single dot (a whitespace run is consumed exactly when it is
adjacent to a dot, as the leading or trailing `\s*` of a match).  The
scan keeps a buffer `pend` of whitespace not yet known to precede a dot
(flushed verbatim when a non-dot non-space character or the end of the
string is reached, discarded when a dot is reached) and a flag `afterDot`
recording that the previous emitted character was the dot of a match, so
that the whitespace following it is consumed as well. -/
def subDotWsGo : (pend : List Char) → (afterDot : Bool) → List Char → List Char
  | pend, _, [] => pend.reverse
  | pend, afterDot, c :: cs =>
    if c = '.' then
      '.' :: subDotWsGo [] true cs
    else if isPySpace c then
      if afterDot then subDotWsGo [] true cs
      else subDotWsGo (c :: pend) false cs
    else
      pend.reverse ++ c :: subDotWsGo [] false cs

/-- `re.sub(r'\s*\.\s*', '.', s)`. -/
def subDotWs (l : List Char) : List Char := subDotWsGo [] false l

example : subDotWs "1 . 1".toList = "1.1".toList := by decide
example : subDotWs "a. b".toList = "a.b".toList := by decide
example : subDotWs " . . ".toList = "..".toList := by decide
example : subDotWs " a b ".toList = " a b ".toList := by decide

/-- `str.replace(',', '.')` applied characterwise. -/
def replComma (c : Char) : Char := if c = ',' then '.' else c

/-- `_normalize_section_id` (documents.py): convert commas to dots,
remove spaces around dots, strip trailing dots and whitespace; the empty
string is returned unchanged (Python `if not section_id`). -/
def normalize_section_id (s : PyStr) : PyStr :=
  if s = [] then s
  else
    let n1 := s.map replComma
    let n2 := subDotWs n1
    let n3 := n2.rdropWhile (fun c => c = '.')
    pyStrip n3

example : normalize_section_id "1,1".toList = "1.1".toList := by decide
example : normalize_section_id "2.1.".toList = "2.1".toList := by decide
example : normalize_section_id "1 , 1".toList = "1.1".toList := by decide
example : normalize_section_id "2.1 ".toList = "2.1".toList := by decide
example : normalize_section_id "2.1.2".toList = "2.1.2".toList := by decide

/-! Idempotence of `normalize_section_id`.  The invariant of the output
of `subDotWs` is that no whitespace character is adjacent to a dot; on
inputs satisfying that invariant `subDotWs` is the identity. -/

/-- No whitespace character directly precedes or follows a dot. -/
def noWsDotAdj (a b : Char) : Prop :=
  ¬(isPySpace a = true ∧ b = '.') ∧ ¬(a = '.' ∧ isPySpace b = true)

theorem isPySpace_dot : isPySpace '.' = false := by decide

theorem ne_dot_of_pySpace {c : Char} (h : isPySpace c = true) : c ≠ '.' := by
  intro hc
  rw [hc, isPySpace_dot] at h
  exact Bool.false_ne_true h

theorem noWsDotAdj_of_not_ws_dot {a : Char} (h1 : isPySpace a = false) (h2 : a ≠ '.')
    (b : Char) : noWsDotAdj a b := by
  constructor
  · rintro ⟨hws, -⟩
    rw [h1] at hws
    exact Bool.false_ne_true hws
  · rintro ⟨hd, -⟩
    exact h2 hd

theorem chain_of_allWs {m : List Char} (h : ∀ w ∈ m, isPySpace w = true) :
    List.Chain' noWsDotAdj m := by
  induction m with
  | nil => exact List.chain'_nil
  | cons a l ih =>
    rw [List.chain'_cons']
    refine ⟨fun y hy => ?_, ih fun w hw => h w (List.mem_cons_of_mem a hw)⟩
    have hya : y ∈ a :: l := by
      cases l with
      | nil => simp at hy
      | cons b bs =>
        simp only [List.head?_cons, Option.mem_def, Option.some.injEq] at hy
        exact List.mem_cons_of_mem a (hy ▸ List.mem_cons_self b bs)
    constructor
    · rintro ⟨-, hdot⟩
      exact ne_dot_of_pySpace (h y hya) hdot
    · rintro ⟨hdot, -⟩
      exact ne_dot_of_pySpace (h a (List.mem_cons_self a l)) hdot

/-- The first character emitted after the dot of a match is never
whitespace (the trailing `\s*` of the match consumed it). -/
theorem subDotWsGo_true_head : ∀ cs : List Char, ∀ d,
    (subDotWsGo [] true cs).head? = some d → isPySpace d = false := by
  intro cs
  induction cs with
  | nil => intro d hd; simp [subDotWsGo] at hd
  | cons c cs ih =>
    intro d hd
    by_cases hdot : c = '.'
    · simp only [subDotWsGo, if_pos hdot, List.head?_cons, Option.some.injEq] at hd
      rw [← hd]
      exact isPySpace_dot
    · by_cases hws : isPySpace c
      · simp only [subDotWsGo, if_neg hdot, if_pos hws, if_pos rfl] at hd
        exact ih d hd
      · simp only [subDotWsGo, if_neg hdot, if_neg hws, List.reverse_nil, List.nil_append,
          List.head?_cons, Option.some.injEq] at hd
        rw [← hd]
        exact Bool.eq_false_iff.mpr hws

/-- Every character of the output of the scanner comes from the pending
buffer, from the input, or is a dot. -/
theorem mem_subDotWsGo : ∀ (l pend : List Char) (ad : Bool) (c : Char),
    c ∈ subDotWsGo pend ad l → c ∈ pend ∨ c ∈ l ∨ c = '.' := by
  intro l
  induction l with
  | nil =>
    intro pend ad c hc
    simp only [subDotWsGo, List.mem_reverse] at hc
    exact Or.inl hc
  | cons a l ih =>
    intro pend ad c hc
    by_cases hdot : a = '.'
    · simp only [subDotWsGo, if_pos hdot, List.mem_cons] at hc
      rcases hc with hc | hc
      · exact Or.inr (Or.inr hc)
      · rcases ih [] true c hc with h | h | h
        · simp at h
        · exact Or.inr (Or.inl (List.mem_cons_of_mem a h))
        · exact Or.inr (Or.inr h)
    · by_cases hws : isPySpace a
      · cases ad with
        | true =>
          simp only [subDotWsGo, if_neg hdot, if_pos hws, if_pos rfl] at hc
          rcases ih [] true c hc with h | h | h
          · simp at h
          · exact Or.inr (Or.inl (List.mem_cons_of_mem a h))
          · exact Or.inr (Or.inr h)
        | false =>
          simp only [subDotWsGo, if_neg hdot, if_pos hws, if_neg (Bool.false_ne_true)] at hc
          rcases ih (a :: pend) false c hc with h | h | h
          · rcases List.mem_cons.mp h with h | h
            · exact Or.inr (Or.inl (h ▸ List.mem_cons_self a l))
            · exact Or.inl h
          · exact Or.inr (Or.inl (List.mem_cons_of_mem a h))
          · exact Or.inr (Or.inr h)
      · simp only [subDotWsGo, if_neg hdot, if_neg hws, List.mem_append, List.mem_reverse,
          List.mem_cons] at hc
        rcases hc with hc | hc | hc
        · exact Or.inl hc
        · exact Or.inr (Or.inl (hc ▸ List.mem_cons_self a l))
        · rcases ih [] false c hc with h | h | h
          · simp at h
          · exact Or.inr (Or.inl (List.mem_cons_of_mem a h))
          · exact Or.inr (Or.inr h)

/-- The output of the scanner never has whitespace adjacent to a dot
(the pending buffer only holds whitespace). -/
theorem subDotWsGo_chain : ∀ (l pend : List Char) (ad : Bool),
    (∀ w ∈ pend, isPySpace w = true) → List.Chain' noWsDotAdj (subDotWsGo pend ad l) := by
  intro l
  induction l with
  | nil =>
    intro pend ad hp
    exact chain_of_allWs fun w hw => hp w (List.mem_reverse.mp hw)
  | cons c cs ih =>
    intro pend ad hp
    by_cases hdot : c = '.'
    · simp only [subDotWsGo, if_pos hdot]
      rw [List.chain'_cons']
      refine ⟨fun y hy => ?_, ih [] true (by simp)⟩
      have : isPySpace y = false := subDotWsGo_true_head cs y hy
      constructor
      · rintro ⟨hws, -⟩
        rw [isPySpace_dot] at hws
        exact Bool.false_ne_true hws
      · rintro ⟨-, hws⟩
        rw [this] at hws
        exact Bool.false_ne_true hws
    · by_cases hws : isPySpace c
      · cases ad with
        | true =>
          simp only [subDotWsGo, if_neg hdot, if_pos hws, if_pos rfl]
          exact ih [] true (by simp)
        | false =>
          simp only [subDotWsGo, if_neg hdot, if_pos hws, if_neg (Bool.false_ne_true)]
          refine ih (c :: pend) false fun w hw => ?_
          rcases List.mem_cons.mp hw with h | h
          · exact h ▸ hws
          · exact hp w h
      · simp only [subDotWsGo, if_neg hdot, if_neg hws]
        rw [List.chain'_append]
        refine ⟨chain_of_allWs fun w hw => hp w (List.mem_reverse.mp hw), ?_, ?_⟩
        · rw [List.chain'_cons']
          exact ⟨fun y _ => noWsDotAdj_of_not_ws_dot (Bool.eq_false_iff.mpr hws) hdot y,
            ih [] false (by simp)⟩
        · intro x hx y hy
          simp only [List.head?_cons, Option.mem_def, Option.some.injEq] at hy
          subst hy
          have hxp : x ∈ pend := by
            rw [List.getLast?_reverse] at hx
            cases pend with
            | nil => simp at hx
            | cons a l =>
              simp only [List.head?_cons, Option.mem_def, Option.some.injEq] at hx
              exact hx ▸ List.mem_cons_self a l
          constructor
          · rintro ⟨-, hd⟩
            exact hdot hd
          · rintro ⟨hd, -⟩
            exact ne_dot_of_pySpace (hp x hxp) hd

/-- On an input without whitespace adjacent to dots the scanner is the
identity (stated for both scanner states simultaneously). -/
theorem subDotWsGo_id : ∀ l : List Char,
    (∀ pend, List.Chain' noWsDotAdj (pend.reverse ++ l) → (∀ w ∈ pend, isPySpace w = true) →
      subDotWsGo pend false l = pend.reverse ++ l) ∧
    (List.Chain' noWsDotAdj l → (∀ d, l.head? = some d → isPySpace d = false) →
      subDotWsGo [] true l = l) := by
  intro l
  induction l with
  | nil =>
    constructor
    · intro pend _ _
      simp [subDotWsGo]
    · intro _ _
      simp [subDotWsGo]
  | cons c cs ih =>
    have tail_facts : List.Chain' noWsDotAdj (c :: cs) → c = '.' →
        List.Chain' noWsDotAdj cs ∧ (∀ d, cs.head? = some d → isPySpace d = false) := by
      intro hch hdot
      rw [List.chain'_cons'] at hch
      refine ⟨hch.2, fun d hd => ?_⟩
      have := hch.1 d hd
      rcases this with ⟨-, h2⟩
      by_contra hws
      exact h2 ⟨hdot, by simpa using hws⟩
    constructor
    · intro pend hch hp
      by_cases hdot : c = '.'
      · have hpend : pend = [] := by
          cases pend with
          | nil => rfl
          | cons w pw =>
            exfalso
            rw [List.chain'_append] at hch
            have := hch.2.2 w (by rw [List.getLast?_reverse]; rfl) c (by simp)
            rcases this with ⟨h1, -⟩
            exact h1 ⟨hp w (List.mem_cons_self w pw), hdot⟩
        subst hpend
        simp only [List.reverse_nil, List.nil_append] at hch ⊢
        simp only [subDotWsGo, if_pos hdot]
        obtain ⟨hcs, hhd⟩ := tail_facts hch hdot
        rw [(ih.2) hcs hhd, hdot]
      · by_cases hws : isPySpace c
        · simp only [subDotWsGo, if_neg hdot, if_pos hws, if_neg (Bool.false_ne_true)]
          have hch' : List.Chain' noWsDotAdj ((c :: pend).reverse ++ cs) := by
            simpa [List.append_assoc] using hch
          have := (ih.1) (c :: pend) hch' fun w hw => by
            rcases List.mem_cons.mp hw with h | h
            · exact h ▸ hws
            · exact hp w h
          rw [this]
          simp [List.append_assoc]
        · simp only [subDotWsGo, if_neg hdot, if_neg hws]
          have hcs : List.Chain' noWsDotAdj cs := by
            refine List.Chain'.suffix hch ⟨pend.reverse ++ [c], ?_⟩
            simp
          have := (ih.1) [] (by simpa using hcs) (by simp)
          simp only [List.reverse_nil, List.nil_append] at this
          rw [this]
    · intro hch hhd
      by_cases hdot : c = '.'
      · simp only [subDotWsGo, if_pos hdot]
        obtain ⟨hcs, hh⟩ := tail_facts hch hdot
        rw [(ih.2) hcs hh, hdot]
      · have hws : isPySpace c = false := hhd c (by simp)
        simp only [subDotWsGo, if_neg hdot, if_neg (Bool.eq_false_iff.mp hws ·),
          List.reverse_nil, List.nil_append]
        have hcs : List.Chain' noWsDotAdj cs := (List.chain'_cons'.mp hch).2
        have := (ih.1) [] (by simpa using hcs) (by simp)
        simp only [List.reverse_nil, List.nil_append] at this
        rw [this]

theorem subDotWs_chain (l : List Char) : List.Chain' noWsDotAdj (subDotWs l) :=
  subDotWsGo_chain l [] false (by simp)

theorem subDotWs_id {l : List Char} (h : List.Chain' noWsDotAdj l) : subDotWs l = l := by
  have := (subDotWsGo_id l).1 [] (by simpa using h) (by simp)
  simpa [subDotWs] using this

theorem mem_subDotWs {l : List Char} {c : Char} (h : c ∈ subDotWs l) : c ∈ l ∨ c = '.' := by
  rcases mem_subDotWsGo l [] false c h with h' | h' | h'
  · simp at h'
  · exact Or.inl h'
  · exact Or.inr h'

/-- The last element of an `rdropWhile` result never satisfies the
predicate. -/
theorem getLast?_rdropWhile_not (p : Char → Bool) (l : List Char) (a : Char)
    (h : (l.rdropWhile p).getLast? = some a) : p a = false := by
  rw [List.rdropWhile, List.getLast?_reverse] at h
  have := List.head?_dropWhile_not p l.reverse
  rw [h] at this
  exact this

/-- Decomposition of a list into its `rdropWhile` part and the dropped
all-`p` suffix. -/
theorem rdropWhile_decomp (p : Char → Bool) (l : List Char) :
    l = l.rdropWhile p ++ (l.reverse.takeWhile p).reverse := by
  conv_lhs => rw [← l.reverse_reverse, ← List.takeWhile_append_dropWhile (p := p) (l := l.reverse)]
  rw [List.reverse_append]
  rfl

theorem mem_rdropWhile_dropped {p : Char → Bool} {l : List Char} {x : Char}
    (h : x ∈ (l.reverse.takeWhile p).reverse) : p x = true := by
  exact List.mem_takeWhile_imp (List.mem_reverse.mp h)

theorem mem_of_mem_rdropWhile {p : Char → Bool} {l : List Char} {x : Char}
    (h : x ∈ l.rdropWhile p) : x ∈ l := by
  have hd := rdropWhile_decomp p l
  rw [hd]
  exact List.mem_append_left _ h

/-- `rdropWhile` does not change a list whose last element fails the
predicate. -/
theorem rdropWhile_eq_self_of_getLast {p : Char → Bool} {l : List Char} {a : Char}
    (h : l.getLast? = some a) (hp : p a = false) : l.rdropWhile p = l := by
  rw [List.rdropWhile]
  rw [← List.head?_reverse] at h
  cases hrev : l.reverse with
  | nil => rw [hrev] at h; simp at h
  | cons b bs =>
    rw [hrev] at h
    simp only [List.head?_cons, Option.some.injEq] at h
    rw [List.dropWhile_cons_of_neg (by rw [h, hp]; exact Bool.false_ne_true)]
    rw [← hrev, l.reverse_reverse]

/-- A nonempty `rdropWhile` result has the head of the original list. -/
theorem head?_rdropWhile_ne_nil {p : Char → Bool} {l : List Char}
    (h : l.rdropWhile p ≠ []) : (l.rdropWhile p).head? = l.head? := by
  conv_rhs => rw [rdropWhile_decomp p l]
  cases hr : l.rdropWhile p with
  | nil => exact absurd hr h
  | cons a ys => simp

/-- A nonempty `dropWhile` result has the last element of the original
list. -/
theorem getLast?_dropWhile_ne_nil {p : Char → Bool} {l : List Char}
    (h : l.dropWhile p ≠ []) : (l.dropWhile p).getLast? = l.getLast? := by
  conv_rhs => rw [← List.takeWhile_append_dropWhile (p := p) (l := l)]
  rw [List.getLast?_append]
  cases hd : (l.dropWhile p).getLast? with
  | none => exact absurd (List.getLast?_eq_none_iff.mp hd) h
  | some a => rfl

/-- C9: the section-id normalization is idempotent, and it maps the
empty string to the empty string (it is a total function by
construction). -/
theorem normalize_section_id_idem :
    (∀ s : PyStr, normalize_section_id (normalize_section_id s) = normalize_section_id s) ∧
    normalize_section_id [] = [] := by
  constructor
  · intro s
    by_cases hs : s = []
    · rw [hs]
      rfl
    · set n1 := s.map replComma with hn1
      set n2 := subDotWs n1 with hn2
      set n3 := n2.rdropWhile (fun c => c = '.') with hn3
      set m := n3.dropWhile isPySpace with hm
      set y := m.rdropWhile isPySpace with hy
      have hys : normalize_section_id s = y := by
        rw [normalize_section_id, if_neg hs]
        rfl
      rw [hys]
      by_cases hynil : y = []
      · rw [hynil]
        rfl
      -- structural facts about y
      have hchain_n2 : List.Chain' noWsDotAdj n2 := subDotWs_chain n1
      have hchain_n3 : List.Chain' noWsDotAdj n3 := by
        refine List.Chain'.prefix hchain_n2 ⟨(n2.reverse.takeWhile (fun c => c = '.')).reverse, ?_⟩
        exact (rdropWhile_decomp _ n2).symm
      have hchain_m : List.Chain' noWsDotAdj m :=
        List.Chain'.suffix hchain_n3 (List.dropWhile_suffix isPySpace)
      have hchain_y : List.Chain' noWsDotAdj y := by
        refine List.Chain'.prefix hchain_m ⟨(m.reverse.takeWhile isPySpace).reverse, ?_⟩
        exact (rdropWhile_decomp _ m).symm
      -- y has no commas
      have hnc : ∀ c ∈ y, c ≠ ',' := by
        intro c hc
        have hcm : c ∈ m := mem_of_mem_rdropWhile hc
        have hcn3 : c ∈ n3 := List.IsSuffix.subset (List.dropWhile_suffix isPySpace) hcm
        have hcn2 : c ∈ n2 := mem_of_mem_rdropWhile hcn3
        rcases mem_subDotWs hcn2 with h | h
        · rw [hn1] at h
          rcases List.mem_map.mp h with ⟨b, -, hb⟩
          rw [← hb]
          unfold replComma
          split
          · intro hcomma
            exact absurd hcomma (by decide)
          · next hne => exact fun hcc => hne hcc
        · rw [h]
          intro hcomma
          exact absurd hcomma (by decide)
      -- the head of y is not whitespace
      have hhead : ∀ d, y.head? = some d → isPySpace d = false := by
        intro d hd
        rw [hy, head?_rdropWhile_ne_nil (hy ▸ hynil)] at hd
        have := List.head?_dropWhile_not isPySpace n3
        rw [hm] at hd
        rw [hd] at this
        exact this
      -- the last of y is not whitespace
      have hlast_ws : ∀ d, y.getLast? = some d → isPySpace d = false := by
        intro d hd
        exact getLast?_rdropWhile_not isPySpace m d (hy ▸ hd)
      -- the last of y is not a dot
      have hlast_dot : ∀ d, y.getLast? = some d → d ≠ '.' := by
        intro d hd hdot
        subst hdot
        rcases List.eq_nil_or_concat (m.reverse.takeWhile isPySpace).reverse with ht | ht
        · -- nothing was stripped from the right of m
          have hym : y = m := by
            have hdm := rdropWhile_decomp isPySpace m
            rw [ht, List.append_nil] at hdm
            rw [hy]
            exact hdm.symm
          have hmne : m ≠ [] := hym ▸ hynil
          have h1 : m.getLast? = some '.' := hym ▸ hd
          have h2 : n3.getLast? = some '.' := by
            rw [← getLast?_dropWhile_ne_nil (hm ▸ hmne)]
            exact hm ▸ h1
          have := getLast?_rdropWhile_not (fun c => c = '.') n2 '.' (hn3 ▸ h2)
          simp at this
        · -- a whitespace character follows the final dot inside m
          obtain ⟨t', w, hw⟩ := ht
          rw [List.concat_eq_append] at hw
          have hdecomp : m = y ++ (m.reverse.takeWhile isPySpace).reverse := by
            rw [hy]
            exact rdropWhile_decomp isPySpace m
          have hchain : List.Chain' noWsDotAdj (y ++ (t' ++ [w])) := by
            rw [← hw, ← hdecomp]
            exact hchain_m
          rw [List.chain'_append] at hchain
          have hglue := hchain.2.2 '.' hd
          have hwmem : isPySpace w = true := by
            refine mem_rdropWhile_dropped (p := isPySpace) (l := m) ?_
            rw [hw]
            exact List.mem_append_right t' (List.mem_cons_self w [])
          cases t' with
          | nil =>
            have := hglue w (by simp)
            exact this.2 ⟨rfl, hwmem⟩
          | cons u us =>
            have humem : isPySpace u = true := by
              refine mem_rdropWhile_dropped (p := isPySpace) (l := m) ?_
              rw [hw]
              exact List.mem_append_left _ (List.mem_cons_self u us)
            have := hglue u (by simp)
            exact this.2 ⟨rfl, humem⟩
      -- now compute the second application
      have happ : normalize_section_id y =
          pyStrip ((subDotWs (y.map replComma)).rdropWhile (fun c => c = '.')) := by
        rw [normalize_section_id, if_neg hynil]
      rw [happ]
      have e1 : y.map replComma = y := by
        have : ∀ c ∈ y, replComma c = c := by
          intro c hc
          unfold replComma
          rw [if_neg (hnc c hc)]
        calc y.map replComma = y.map id := List.map_congr_left this
        _ = y := List.map_id y
      rw [e1]
      have e2 : subDotWs y = y := subDotWs_id hchain_y
      rw [e2]
      have e3 : y.rdropWhile (fun c => c = '.') = y := by
        cases hld : y.getLast? with
        | none => exact absurd (List.getLast?_eq_none_iff.mp hld) hynil
        | some d =>
          refine rdropWhile_eq_self_of_getLast hld ?_
          exact decide_eq_false (hlast_dot d hld)
      rw [e3]
      have e4 : y.dropWhile isPySpace = y := by
        cases hcy : y with
        | nil => rfl
        | cons a ys =>
          have : isPySpace a = false := hhead a (by rw [hcy]; rfl)
          rw [List.dropWhile_cons_of_neg (by rw [this]; exact Bool.false_ne_true)]
      have e5 : y.rdropWhile isPySpace = y := by
        cases hld : y.getLast? with
        | none => exact absurd (List.getLast?_eq_none_iff.mp hld) hynil
        | some d => exact rdropWhile_eq_self_of_getLast hld (hlast_ws d hld)
      show pyStrip y = y
      rw [pyStrip, e4, e5]
  · rfl

/-! Sections and batching (`_split_sections_into_batches`,
`generate_content`). -/

/-- A section dict of a document's `content_json`, with the keys this
pipeline reads (`id`, `title`, `content`, `type`); `none` models an
absent key (Python `.get` with a default). -/
structure PySec where
  id : Option String
  title : Option String
  content : Option String
  type : Option String
deriving DecidableEq, Repr

/-- The batch-size update of `_split_sections_into_batches`:
`batch_size = 3 if batch_size == 5 else 5 if batch_size == 3 else 4`. -/
def nextBatchSize (batch_size : Nat) : Nat :=
  if batch_size = 5 then 3 else if batch_size = 3 then 5 else 4

/-- Loop body of `_split_sections_into_batches`: append the section to
the current batch; once the batch reaches `batch_size`, flush it and
update the size; a nonempty remainder becomes the final batch. -/
def splitLoop {α : Type} : List α → Nat → List α → List (List α)
  | [], _, current_batch => if current_batch.isEmpty then [] else [current_batch]
  | s :: rest, batch_size, current_batch =>
    let cur := current_batch ++ [s]
    if batch_size ≤ cur.length then
      cur :: splitLoop rest (nextBatchSize batch_size) []
    else
      splitLoop rest batch_size cur

/-- `_split_sections_into_batches(sections, batch_size)` (documents.py). -/
def split_sections_into_batches {α : Type} (sections : List α) (batch_size : Nat) :
    List (List α) :=
  splitLoop sections batch_size []

/-- `generate_content` (documents.py): milestone tables are excluded
from generation; `s.get("type") != "milestone_table"` keeps sections
whose `type` key is absent or different. -/
def text_sections (sections : List PySec) : List PySec :=
  sections.filter (fun s => s.type ≠ some "milestone_table")

/-- The batching step of `generate_content`: milestone tables are
filtered out, then the remaining sections are split with initial batch
size 4. -/
def generate_batches (sections : List PySec) : List (List PySec) :=
  split_sections_into_batches (text_sections sections) 4

theorem splitLoop_ne_nil {α : Type} :
    ∀ (rest : List α) (bs : Nat) (cur : List α), ∀ b ∈ splitLoop rest bs cur, b ≠ [] := by
  intro rest
  induction rest with
  | nil =>
    intro bs cur b hb
    simp only [splitLoop] at hb
    split at hb
    · simp at hb
    · next hcur =>
      rw [List.mem_singleton] at hb
      subst hb
      intro hnil
      rw [hnil] at hcur
      simp at hcur
  | cons s rest ih =>
    intro bs cur b hb
    simp only [splitLoop] at hb
    split at hb
    · rcases List.mem_cons.mp hb with h | h
      · subst h
        simp
      · exact ih _ _ b h
    · exact ih _ _ b hb

theorem splitLoop_join {α : Type} :
    ∀ (rest : List α) (bs : Nat) (cur : List α), (splitLoop rest bs cur).flatten = cur ++ rest := by
  intro rest
  induction rest with
  | nil =>
    intro bs cur
    by_cases hcur : cur = []
    · simp [splitLoop, hcur]
    · simp [splitLoop, hcur]
  | cons s rest ih =>
    intro bs cur
    simp only [splitLoop]
    split
    · simp [List.flatten, ih, List.append_assoc]
    · simp [ih, List.append_assoc]

/-- C6: over any list of sections the batching step of `generate_content`
produces no empty batch, the concatenation of the batches is exactly the
milestone-filtered section list in original order (hence preserves count
and order of everything that is batched), and no batch contains a
`milestone_table` section. -/
theorem generate_batches_sound (sections : List PySec) :
    (∀ b ∈ generate_batches sections, b ≠ []) ∧
    (generate_batches sections).flatten = text_sections sections ∧
    (∀ b ∈ generate_batches sections, ∀ s ∈ b, s.type ≠ some "milestone_table") := by
  refine ⟨fun b hb => splitLoop_ne_nil _ _ _ b hb, ?_, ?_⟩
  · simpa [generate_batches, split_sections_into_batches] using
      splitLoop_join (text_sections sections) 4 []
  · intro b hb s hs
    have hjoin : s ∈ (generate_batches sections).flatten := List.mem_flatten.mpr ⟨b, hb, hs⟩
    rw [show (generate_batches sections).flatten = text_sections sections by
      simpa [generate_batches, split_sections_into_batches] using
        splitLoop_join (text_sections sections) 4 []] at hjoin
    have := List.mem_filter.mp hjoin
    simpa using this.2

/-- A concrete text section used for counterexample computations. -/
def secText : PySec := ⟨some "1", some "T", some "", none⟩

/-- C5 (failing input): with the default initial size 4 the batch size
never changes, because the update maps 4 to 4; nine sections are split
into batches of sizes 4, 4, 1, not the 4, 5 that the 4 to 5 to 3
oscillation rule stated by the specification would give.  This
contradicts the function's own docstring, which says the size "will vary
between 3-5". -/
theorem split_batches_size_fixed_at_4 :
    nextBatchSize 4 = 4 ∧
    (split_sections_into_batches (List.replicate 9 secText) 4).map List.length =
      [4, 4, 1] ∧
    ([4, 4, 1] : List Nat) ≠ [4, 5] ∧
    (split_sections_into_batches (List.replicate 8 secText) 5).map List.length =
      [5, 3] := by
  refine ⟨rfl, by decide, by decide, by decide⟩

/-! `update_document` heading-lock validation. -/

/-- Python dict comprehension semantics for
`{s.get("id"): s for s in sections if isinstance(s, dict) and "id" in s}`:
an insertion-ordered association list in which a repeated key overwrites
the stored value in place. -/
def dictInsert {α : Type} (m : List (String × α)) (k : String) (v : α) :
    List (String × α) :=
  if m.any (fun p => p.1 = k) then
    m.map (fun p => if p.1 = k then (k, v) else p)
  else
    m ++ [(k, v)]

def sectionsById (sections : List PySec) : List (String × PySec) :=
  sections.foldl
    (fun m s =>
      match s.id with
      | some i => dictInsert m i s
      | none => m)
    []

def dictLookup {α : Type} (m : List (String × α)) (k : String) : Option α :=
  (m.find? (fun p => p.1 = k)).map (fun p => p.2)

inductive UpdateErr
  | titleLocked
  | sectionAdded
deriving DecidableEq, Repr

/-- `update_document` heading-lock validation (documents.py): when
`headings_confirmed` is set it walks the new section map and rejects the
first id that exists in the old map with a different title
(`.get("title", "")` on both sides), then rejects if any id of the new
map is absent from the old map; otherwise (and whenever the flag is not
set) the new `content_json` is accepted. -/
def update_document_check (headings_confirmed : Bool)
    (old_sections new_sections : List PySec) : Except UpdateErr Unit :=
  if headings_confirmed then
    let old_by_id := sectionsById old_sections
    let new_by_id := sectionsById new_sections
    match new_by_id.find? (fun p =>
        match dictLookup old_by_id p.1 with
        | some os => !(os.title.getD "" == p.2.title.getD "")
        | none => false) with
    | some _ => .error .titleLocked
    | none =>
      if new_by_id.any (fun p => (dictLookup old_by_id p.1).isNone) then
        .error .sectionAdded
      else
        .ok ()
  else
    .ok ()

/-- C2: with `headings_confirmed = true`, `update_document` accepts a new
section list exactly when every id of the new section map already exists
in the old map with an unchanged title — so a changed title or an added
id is rejected, and content-only changes are accepted. -/
theorem update_document_check_ok_iff (old_sections new_sections : List PySec) :
    update_document_check true old_sections new_sections = .ok () ↔
      ∀ p ∈ sectionsById new_sections,
        ∃ os, dictLookup (sectionsById old_sections) p.1 = some os ∧
          os.title.getD "" = p.2.title.getD "" := by
  rw [update_document_check]
  simp only [if_pos rfl]
  cases hfind : (sectionsById new_sections).find? (fun p =>
      match dictLookup (sectionsById old_sections) p.1 with
      | some os => !(os.title.getD "" == p.2.title.getD "")
      | none => false) with
  | some q =>
    simp only [hfind]
    constructor
    · intro h
      cases h
    · intro h
      exfalso
      have hq := List.find?_some hfind
      have hqm := List.mem_of_find?_eq_some hfind
      obtain ⟨os, hos, htitle⟩ := h q hqm
      rw [hos] at hq
      simp only [Bool.not_eq_true'] at hq
      rw [htitle] at hq
      simp at hq
  | none =>
    simp only [hfind]
    have hall := List.find?_eq_none.mp hfind
    by_cases hany : (sectionsById new_sections).any
        (fun p => (dictLookup (sectionsById old_sections) p.1).isNone)
    · simp only [if_pos hany]
      constructor
      · intro h
        cases h
      · intro h
        exfalso
        rw [List.any_eq_true] at hany
        obtain ⟨p, hp, hnone⟩ := hany
        obtain ⟨os, hos, -⟩ := h p hp
        rw [hos] at hnone
        simp at hnone
    · simp only [if_neg hany]
      constructor
      · intro _ p hp
        have hsome : (dictLookup (sectionsById old_sections) p.1).isSome := by
          by_contra hns
          exact hany (List.any_eq_true.mpr ⟨p, hp, by
            simp only [Option.isNone_iff_eq_none]
            exact Option.not_isSome_iff_eq_none.mp hns⟩)
        obtain ⟨os, hos⟩ := Option.isSome_iff_exists.mp hsome
        refine ⟨os, hos, ?_⟩
        have := hall p hp
        rw [hos] at this
        simpa using this
      · intro _
        rfl

/-! `confirm_chat_edit`: apply a confirmed section edit. -/

/-- A chat-history message; `confirm_chat_edit` never touches the chat
history, the fields are the ones `_save_chat_message` writes. -/
structure ChatMsg where
  role : String
  text : String
  requiresConfirmation : Option Bool
deriving DecidableEq, Repr

/-- The `ChatResponse` body returned by the chat endpoints. -/
structure ChatResponse where
  message : String
  updated_sections : Option (List String)
  is_question : Bool
  requires_confirmation : Bool
deriving DecidableEq, Repr

inductive ConfirmErr
  | noSections
  | sectionNotFound
  | saveMismatch
deriving DecidableEq, Repr

/-- First pass of `confirm_chat_edit`: walk the sections in order and
overwrite the `content` of the first section whose id
(`section.get("id", "")`) equals the request's `section_id`; the loop
breaks after the first hit. -/
def setFirstContent : List PySec → String → String → List PySec
  | [], _, _ => []
  | s :: rest, sid, cc =>
    if s.id.getD "" = sid then { s with content := some cc } :: rest
    else s :: setFirstContent rest sid cc

/-- Rebuild step of `confirm_chat_edit`: every section is rebuilt as a
dict with exactly the keys `id`, `title` and `content` (each defaulted
to `""`); for the confirmed section a mismatching content is forced back
to the confirmed text. -/
def rebuildSection (sid cc : String) (s : PySec) : PySec :=
  let base := s.content.getD ""
  let section_content :=
    if s.id.getD "" = sid ∧ base ≠ cc then cc else base
  { id := some (s.id.getD ""), title := some (s.title.getD ""),
    content := some section_content, type := none }

/-- The `rebuilt_section` re-check of `confirm_chat_edit`: the first
rebuilt section whose `id` equals the request's id has its content
forced to the confirmed text if it differs (`s.get("id")` has no
default here, hence the comparison with `some sid`). -/
def fixRebuilt : List PySec → String → String → List PySec
  | [], _, _ => []
  | s :: rest, sid, cc =>
    if s.id == some sid then
      (if s.content.getD "" ≠ cc then { s with content := some cc } else s) :: rest
    else s :: fixRebuilt rest sid cc

def confirmMessage (sid : String) : String :=
  "Änderung für Abschnitt " ++ sid ++ " wurde bestätigt und gespeichert."

/-- `confirm_chat_edit` (documents.py), after the HTTP-level ownership
and document-type guards: locate the section, overwrite its content with
the confirmed content, rebuild all sections with only id/title/content,
save, verify the saved content, and return a `ChatResponse`; the chat
history is returned unchanged because the endpoint never appends to it.  -/
def confirm_chat_edit (sections : List PySec) (chat_history : List ChatMsg)
    (section_id confirmed_content : String) :
    Except ConfirmErr (List PySec × List ChatMsg × ChatResponse) :=
  if sections.isEmpty then .error .noSections
  else
    let section_found := sections.any (fun s => s.id.getD "" == section_id)
    let sections1 := setFirstContent sections section_id confirmed_content
    if !section_found then .error .sectionNotFound
    else
      let updated0 := sections1.map (rebuildSection section_id confirmed_content)
      let updated_sections := fixRebuilt updated0 section_id confirmed_content
      match updated_sections.find? (fun s => s.id == some section_id) with
      | some saved =>
        if saved.content.getD "" ≠ confirmed_content then .error .saveMismatch
        else
          .ok (updated_sections, chat_history,
            ⟨confirmMessage section_id, some [section_id], false, false⟩)
      | none =>
        .ok (updated_sections, chat_history,
          ⟨confirmMessage section_id, some [section_id], false, false⟩)

theorem setFirstContent_exists_id {l : List PySec} {sid cc : String} {i : String}
    (h : ∃ s ∈ l, s.id.getD "" = i) :
    ∃ s ∈ setFirstContent l sid cc, s.id.getD "" = i := by
  induction l with
  | nil => simp at h
  | cons s rest ih =>
    obtain ⟨t, ht, hti⟩ := h
    rcases List.mem_cons.mp ht with h1 | h1
    · subst h1
      by_cases hs : t.id.getD "" = sid
      · exact ⟨{ t with content := some cc }, by simp [setFirstContent, hs], hti⟩
      · exact ⟨t, by simp [setFirstContent, hs], hti⟩
    · by_cases hs : s.id.getD "" = sid
      · exact ⟨t, by simp [setFirstContent, hs, List.mem_cons, h1], hti⟩
      · obtain ⟨u, hu, hui⟩ := ih ⟨t, h1, hti⟩
        exact ⟨u, by simp [setFirstContent, hs, List.mem_cons, Or.inr hu], hui⟩

/-- After rebuilding and re-checking, the first section carrying the
confirmed id holds exactly the confirmed content. -/
theorem fixRebuilt_find {l : List PySec} {sid cc : String}
    (h : ∃ s ∈ l, s.id.getD "" = sid) :
    ∃ s', (fixRebuilt (l.map (rebuildSection sid cc)) sid cc).find?
        (fun s => s.id == some sid) = some s' ∧ s'.content = some cc := by
  induction l with
  | nil => simp at h
  | cons s rest ih =>
    by_cases hs : s.id.getD "" = sid
    · refine ⟨rebuildSection sid cc s, ?_, ?_⟩
      · have hid : (rebuildSection sid cc s).id == some sid := by
          simp [rebuildSection, hs]
        have hcc : (rebuildSection sid cc s).content.getD "" = cc := by
          simp only [rebuildSection, Option.getD_some]
          by_cases hbase : s.content.getD "" = cc
          · simp [hbase]
          · simp [hs, hbase]
        simp only [List.map_cons, fixRebuilt, if_pos hid]
        rw [if_neg (by simp [hcc])]
        simp only [List.find?, hid]
      · simp only [rebuildSection]
        by_cases hbase : s.content.getD "" = cc
        · simp [hbase]
        · simp [hs, hbase]
    · have hid : ((rebuildSection sid cc s).id == some sid) = false := by
        simp [rebuildSection, hs]
      have h' : ∃ t ∈ rest, t.id.getD "" = sid := by
        obtain ⟨t, ht, hti⟩ := h
        rcases List.mem_cons.mp ht with h1 | h1
        · exact absurd (h1 ▸ hti) hs
        · exact ⟨t, h1, hti⟩
      obtain ⟨s', hfind, hcont⟩ := ih h'
      refine ⟨s', ?_, hcont⟩
      simp only [List.map_cons, fixRebuilt, hid, Bool.false_eq_true, if_false]
      simp only [List.find?, hid]
      exact hfind

/-- Core evaluation of `confirm_chat_edit` in the found case. -/
theorem confirm_chat_edit_eq_ok (sections : List PySec) (chat : List ChatMsg)
    (sid cc : String) (hfound : ∃ s ∈ sections, s.id.getD "" = sid) :
    confirm_chat_edit sections chat sid cc =
      .ok (fixRebuilt ((setFirstContent sections sid cc).map (rebuildSection sid cc)) sid cc,
        chat, ⟨confirmMessage sid, some [sid], false, false⟩) := by
  obtain ⟨s0, hs0, hs0i⟩ := hfound
  have hnonempty : sections.isEmpty = false := by
    cases sections with
    | nil => simp at hs0
    | cons a l => rfl
  have hany : sections.any (fun s => s.id.getD "" == sid) = true :=
    List.any_eq_true.mpr ⟨s0, hs0, by simp [hs0i]⟩
  obtain ⟨s', hfind, hcont⟩ :=
    @fixRebuilt_find (setFirstContent sections sid cc) sid cc
      (@setFirstContent_exists_id sections sid cc sid ⟨s0, hs0, hs0i⟩)
  rw [confirm_chat_edit]
  rw [if_neg (by rw [hnonempty]; exact Bool.false_ne_true)]
  simp only [hany, Bool.not_true, Bool.false_eq_true, if_false]
  rw [hfind]
  simp [hcont]

/-- C1 counterexample input. -/
def c1Sec : PySec := ⟨some "2.1", some "T", some "old", none⟩

/-- C1 counterexample: confirming section "2.1" with confirmed content
"X" on a document whose chat history is empty succeeds, stores "X", but
returns the chat history unchanged (still zero messages): no
assistant-role chat message is appended to the document's chat history,
contradicting the claim that exactly one is appended. -/
theorem confirm_chat_edit_appends_no_chat_message :
    confirm_chat_edit [c1Sec] [] "2.1" "X" =
      .ok ([⟨some "2.1", some "T", some "X", none⟩], ([] : List ChatMsg),
        ⟨confirmMessage "2.1", some ["2.1"], false, false⟩) ∧
    ([] : List ChatMsg).length ≠ ([] : List ChatMsg).length + 1 := by
  exact ⟨rfl, by decide⟩

/-- C1 (amended): whenever the requested section_id equals the id of one
of the document's sections, `confirm_chat_edit` succeeds, the first
stored section carrying that id holds the confirmed content
byte-for-byte, the response has requires_confirmation = false, and the
chat history is returned unchanged — no chat message is appended. -/
theorem confirm_chat_edit_stores_content (sections : List PySec) (chat : List ChatMsg)
    (sid cc : String) (hfound : ∃ s ∈ sections, s.id.getD "" = sid) :
    ∃ final resp,
      confirm_chat_edit sections chat sid cc = .ok (final, chat, resp) ∧
      (∃ s', final.find? (fun s => s.id == some sid) = some s' ∧ s'.content = some cc) ∧
      resp.requires_confirmation = false := by
  refine ⟨_, _, confirm_chat_edit_eq_ok sections chat sid cc hfound, ?_, rfl⟩
  exact @fixRebuilt_find (setFirstContent sections sid cc) sid cc
    (@setFirstContent_exists_id sections sid cc sid hfound)

/-- Witness for C1 (amended) at a concrete input. -/
theorem confirm_chat_edit_stores_content_witness :
    ∃ final resp,
      confirm_chat_edit [c1Sec] [] "2.1" "X" = .ok (final, ([] : List ChatMsg), resp) ∧
      (∃ s', final.find? (fun s => s.id == some "2.1") = some s' ∧ s'.content = some "X") ∧
      resp.requires_confirmation = false :=
  confirm_chat_edit_stores_content [c1Sec] [] "2.1" "X" ⟨c1Sec, by decide, by decide⟩

theorem mem_fixRebuilt {l : List PySec} {sid cc : String} {s : PySec}
    (h : s ∈ fixRebuilt l sid cc) :
    s ∈ l ∨ ∃ t ∈ l, s = { t with content := some cc } := by
  induction l with
  | nil => simp [fixRebuilt] at h
  | cons a rest ih =>
    simp only [fixRebuilt] at h
    split at h
    · split at h
      · rcases List.mem_cons.mp h with h1 | h1
        · exact Or.inr ⟨a, List.mem_cons_self a rest, h1⟩
        · exact Or.inl (List.mem_cons_of_mem a h1)
      · exact Or.inl h
    · rcases List.mem_cons.mp h with h1 | h1
      · exact Or.inl (h1 ▸ List.mem_cons_self a rest)
      · rcases ih h1 with h2 | ⟨t, ht, hts⟩
        · exact Or.inl (List.mem_cons_of_mem a h2)
        · exact Or.inr ⟨t, List.mem_cons_of_mem a ht, hts⟩

/-- C7: on a successful confirmation every stored section — also the
ones not targeted by the request — is rebuilt with only the keys id,
title and content (all present), and the `type` key (in particular the
`milestone_table` marker) is dropped from every stored section. -/
theorem confirm_chat_edit_drops_type (sections : List PySec) (chat : List ChatMsg)
    (sid cc : String) (hfound : ∃ s ∈ sections, s.id.getD "" = sid) :
    ∃ final resp,
      confirm_chat_edit sections chat sid cc = .ok (final, chat, resp) ∧
      ∀ s ∈ final, s.type = none ∧ s.id.isSome ∧ s.title.isSome ∧ s.content.isSome := by
  refine ⟨_, _, confirm_chat_edit_eq_ok sections chat sid cc hfound, ?_⟩
  intro s hs
  rcases mem_fixRebuilt hs with h | ⟨t, ht, hts⟩
  · rcases List.mem_map.mp h with ⟨u, -, hu⟩
    rw [← hu]
    simp [rebuildSection]
  · rcases List.mem_map.mp ht with ⟨u, -, hu⟩
    rw [hts, ← hu]
    simp [rebuildSection]

/-- Witness for C7: a document with an untargeted `milestone_table`
section; after confirming section "1", the milestone section's `type`
key is gone. -/
theorem confirm_chat_edit_drops_type_witness :
    ∃ final resp,
      confirm_chat_edit
        [⟨some "1", some "A", some "x", none⟩,
         ⟨some "2", some "M", some "t", some "milestone_table"⟩] [] "1" "neu" =
        .ok (final, ([] : List ChatMsg), resp) ∧
      ∀ s ∈ final, s.type = none ∧ s.id.isSome ∧ s.title.isSome ∧ s.content.isSome :=
  confirm_chat_edit_drops_type _ [] "1" "neu"
    ⟨⟨some "1", some "A", some "x", none⟩, by decide, by decide⟩

/-! `_generate_batch_content`: strict JSON-contract validation with
bounded retries.  The OpenAI chat-completion call is modelled as an
oracle mapping the attempt number to the response obtained on that
attempt (the inputs of the call are the same on every attempt). -/

/-- A JSON value, as far as the validation inspects it: a string or
anything else (`isinstance(content, str)`). -/
inductive JVal
  | jstr (s : String)
  | jother
deriving DecidableEq, Repr

def JVal.isStr : JVal → Bool
  | .jstr _ => true
  | .jother => false

/-- One model response: either text on which `json.loads` fails (a
non-dict JSON top level likewise never validates, because the id
membership test then fails or raises), or a parsed JSON object given as
its key/value pairs. -/
inductive LLMResp
  | parseFail
  | parsed (m : List (String × JVal))
deriving DecidableEq, Repr

inductive GenErr
  | jsonParseError
  | missingIds (ids : List String)
  | nonStringValue (sid : String)
deriving DecidableEq, Repr

/-- Per-attempt validation of `_generate_batch_content`: every expected
section id must be a key of the parsed object, and every value must be a
string (an unexpected extra key only logs a warning); on success the
parsed mapping is returned unchanged. -/
def validateResponse (section_ids : List String) :
    LLMResp → Except GenErr (List (String × JVal))
  | .parseFail => .error .jsonParseError
  | .parsed m =>
    let missing_ids := section_ids.filter (fun sid => (dictLookup m sid).isNone)
    if !missing_ids.isEmpty then .error (.missingIds missing_ids)
    else
      match m.find? (fun p => !p.2.isStr) with
      | some p => .error (.nonStringValue p.1)
      | none => .ok m

/-- The retry loop `for attempt in range(max_retries + 1)` of
`_generate_batch_content`: the attempt number counts up while the
remaining retry budget counts down; a failed attempt retries with the
same inputs while budget remains, and the final failure is raised. -/
def genAttempts (oracle : Nat → LLMResp) (section_ids : List String) :
    Nat → Nat → Except GenErr (List (String × JVal))
  | attempt, remaining =>
    match validateResponse section_ids (oracle attempt) with
    | .ok m => .ok m
    | .error e =>
      match remaining with
      | 0 => .error e
      | r + 1 => genAttempts oracle section_ids (attempt + 1) r

/-- `_generate_batch_content(client, batch_sections, ..., max_retries)`
(documents.py), with the prompt construction elided (it does not affect
the validation contract) and the response of attempt `k` given by
`oracle k`. -/
def generate_batch_content (oracle : Nat → LLMResp) (section_ids : List String)
    (max_retries : Nat) : Except GenErr (List (String × JVal)) :=
  genAttempts oracle section_ids 0 max_retries

theorem validateResponse_ok (section_ids : List String) (r : LLMResp)
    (m : List (String × JVal)) (h : validateResponse section_ids r = .ok m) :
    (∀ sid ∈ section_ids, (dictLookup m sid).isSome) ∧ (∀ p ∈ m, p.2.isStr = true) := by
  cases r with
  | parseFail => cases h
  | parsed m0 =>
    rw [validateResponse] at h
    split at h
    · cases h
    · next hmiss =>
      split at h
      · cases h
      · next hfind =>
        cases h
        constructor
        · intro sid hsid
          have hnil : section_ids.filter (fun sid => (dictLookup m sid).isNone) = [] := by
            have hemp : (section_ids.filter
                (fun sid => (dictLookup m sid).isNone)).isEmpty = true := by
              simpa using hmiss
            simpa [List.isEmpty_iff] using hemp
          have := List.filter_eq_nil_iff.mp hnil sid hsid
          simpa [Option.isNone_iff_eq_none, Option.isSome_iff_ne_none] using this
        · intro p hp
          have := List.find?_eq_none.mp hfind p hp
          simpa using this

theorem genAttempts_ok (oracle : Nat → LLMResp) (section_ids : List String) :
    ∀ (remaining attempt : Nat) (m : List (String × JVal)),
      genAttempts oracle section_ids attempt remaining = .ok m →
      ∃ k, attempt ≤ k ∧ k ≤ attempt + remaining ∧
        validateResponse section_ids (oracle k) = .ok m ∧
        ∀ j, attempt ≤ j → j < k → ∃ e, validateResponse section_ids (oracle j) = .error e := by
  intro remaining
  induction remaining with
  | zero =>
    intro attempt m h
    rw [genAttempts] at h
    cases hv : validateResponse section_ids (oracle attempt) with
    | ok m' =>
      rw [hv] at h
      cases h
      exact ⟨attempt, Nat.le_refl _, Nat.le_refl _, hv, fun j hj1 hj2 => absurd hj2 (by omega)⟩
    | error e =>
      rw [hv] at h
      cases h
  | succ r ih =>
    intro attempt m h
    rw [genAttempts] at h
    cases hv : validateResponse section_ids (oracle attempt) with
    | ok m' =>
      rw [hv] at h
      cases h
      exact ⟨attempt, Nat.le_refl _, by omega, hv, fun j hj1 hj2 => absurd hj2 (by omega)⟩
    | error e =>
      rw [hv] at h
      obtain ⟨k, hk1, hk2, hkv, hkall⟩ := ih (attempt + 1) m h
      refine ⟨k, by omega, by omega, hkv, fun j hj1 hj2 => ?_⟩
      rcases Nat.eq_or_lt_of_le hj1 with hje | hjl
      · exact ⟨e, hje ▸ hv⟩
      · exact hkall j hjl hj2

theorem genAttempts_error (oracle : Nat → LLMResp) (section_ids : List String) :
    ∀ (remaining attempt : Nat),
      (∀ k, attempt ≤ k → k ≤ attempt + remaining →
        ∃ e, validateResponse section_ids (oracle k) = .error e) →
      ∃ e, genAttempts oracle section_ids attempt remaining = .error e := by
  intro remaining
  induction remaining with
  | zero =>
    intro attempt h
    obtain ⟨e, he⟩ := h attempt (Nat.le_refl _) (Nat.le_refl _)
    refine ⟨e, ?_⟩
    rw [genAttempts, he]
  | succ r ih =>
    intro attempt h
    obtain ⟨e0, he0⟩ := h attempt (Nat.le_refl _) (by omega)
    obtain ⟨e, he⟩ := ih (attempt + 1) fun k hk1 hk2 => h k (by omega) (by omega)
    refine ⟨e, ?_⟩
    rw [genAttempts, he0]
    exact he

/-- C3: `_generate_batch_content` never returns a mapping that is
missing an expected section id or that carries a non-string value — a
successful result is the validated response of the first valid attempt
`k ≤ max_retries` (all earlier attempts, with the same inputs, having
failed validation), and if every attempt within the retry budget is
invalid the call raises an error instead of returning partial or coerced
content. -/
theorem generate_batch_content_contract (oracle : Nat → LLMResp)
    (section_ids : List String) (max_retries : Nat) :
    (∀ m, generate_batch_content oracle section_ids max_retries = .ok m →
      (∀ sid ∈ section_ids, (dictLookup m sid).isSome) ∧
      (∀ p ∈ m, p.2.isStr = true) ∧
      (∃ k, k ≤ max_retries ∧ validateResponse section_ids (oracle k) = .ok m ∧
        ∀ j < k, ∃ e, validateResponse section_ids (oracle j) = .error e)) ∧
    ((∀ k, k ≤ max_retries → ∃ e, validateResponse section_ids (oracle k) = .error e) →
      ∃ e, generate_batch_content oracle section_ids max_retries = .error e) := by
  constructor
  · intro m h
    obtain ⟨k, -, hk2, hkv, hkall⟩ := genAttempts_ok oracle section_ids max_retries 0 m h
    obtain ⟨h1, h2⟩ := validateResponse_ok section_ids (oracle k) m hkv
    exact ⟨h1, h2, k, by omega, hkv, fun j hj => hkall j (Nat.zero_le _) hj⟩
  · intro h
    exact genAttempts_error oracle section_ids max_retries 0
      fun k hk1 hk2 => h k (by omega)

/-- Oracle that first answers with a partial mapping (id "1" missing),
then with a complete one: the call must retry past the partial data. -/
def oracleRetry : Nat → LLMResp := fun n =>
  if n = 0 then .parsed [("0", .jstr "text")]
  else .parsed [("0", .jstr "a"), ("1", .jstr "b")]

/-- Oracle whose every answer fails to parse. -/
def oracleFail : Nat → LLMResp := fun _ => .parseFail

/-- Witness for C3: with `oracleRetry` the call returns the complete
second response (the partial first attempt was retried), and with
`oracleFail` the call errors out after exhausting the budget. -/
theorem generate_batch_content_contract_witness :
    ((∀ sid ∈ ["0", "1"], (dictLookup [("0", JVal.jstr "a"), ("1", JVal.jstr "b")] sid).isSome) ∧
      (∀ p ∈ [("0", JVal.jstr "a"), ("1", JVal.jstr "b")], p.2.isStr = true) ∧
      (∃ k, k ≤ 2 ∧
        validateResponse ["0", "1"] (oracleRetry k) =
          .ok [("0", JVal.jstr "a"), ("1", JVal.jstr "b")] ∧
        ∀ j < k, ∃ e, validateResponse ["0", "1"] (oracleRetry j) = .error e)) ∧
    (∃ e, generate_batch_content oracleFail ["0", "1"] 2 = .error e) := by
  constructor
  · exact (generate_batch_content_contract oracleRetry ["0", "1"] 2).1
      [("0", JVal.jstr "a"), ("1", JVal.jstr "b")] rfl
  · exact (generate_batch_content_contract oracleFail ["0", "1"] 2).2
      fun k _ => ⟨.jsonParseError, rfl⟩

/-! `resolve_template` (template_resolver.py). -/

/-- A JSON-like Python value, as far as the template resolver inspects
stored template structures. -/
inductive PyVal
  | vdict (entries : List (String × PyVal))
  | vlist (items : List PyVal)
  | vstr (s : String)
  | vint (n : Int)
  | vnone

def pyvalLookup : List (String × PyVal) → String → Option PyVal
  | [], _ => none
  | (k, v) :: rest, key => if k == key then some v else pyvalLookup rest key

/-- A row of the `user_templates` table, as read by the resolver. -/
structure UserTemplate where
  id : String
  user_email : String
  template_structure : PyVal

inductive TemplErr
  | invalidSource
  | missingRef
  | dbRequired
  | emailRequired
  | invalidRef
  | notFoundOrDenied
  | invalidStructure
  | missingSectionsKey
  | sectionsNotList

/-- `resolve_template(template_source, template_ref, db, user_email)`
(template_resolver.py).  The system-template registry and the UUID
parser are oracle parameters (`get_system_template` lives in
`app/templates`, `uuid.UUID` in the standard library); the database
query is a first-match lookup over the user-template rows filtered by id
and owner email. -/
def resolve_template (get_system_template : String → Except TemplErr PyVal)
    (parseUUID : String → Option String)
    (template_source template_ref : Option String)
    (db : Option (List UserTemplate)) (user_email : Option String) :
    Except TemplErr PyVal :=
  let source :=
    if template_source = none ∧ template_ref ≠ none ∧ template_ref ≠ some "" then
      some "system"
    else template_source
  if ¬(source = some "system" ∨ source = some "user") then .error .invalidSource
  else
    match template_ref with
    | none => .error .missingRef
    | some r =>
      if r = "" then .error .missingRef
      else if source = some "system" then get_system_template r
      else
        match db with
        | none => .error .dbRequired
        | some store =>
          match user_email with
          | none => .error .emailRequired
          | some em =>
            if em = "" then .error .emailRequired
            else
              match parseUUID r with
              | none => .error .invalidRef
              | some template_id =>
                match store.find? (fun t =>
                    t.id == template_id && t.user_email == em) with
                | none => .error .notFoundOrDenied
                | some user_template =>
                  match user_template.template_structure with
                  | .vdict entries =>
                    match pyvalLookup entries "sections" with
                    | none => .error .missingSectionsKey
                    | some (.vlist _) => .ok (.vdict entries)
                    | some _ => .error .sectionsNotList
                  | _ => .error .invalidStructure

/-- Modelled from the spec's words, for comparison with the code: the
structure has a `sections` list whose entries are all dicts containing
both an `id` and a `title` key. -/
def specEntryIsDictWithIdTitle : PyVal → Bool
  | .vdict entries => (pyvalLookup entries "id").isSome && (pyvalLookup entries "title").isSome
  | _ => false

def specSectionsValidated : PyVal → Bool
  | .vdict entries =>
    match pyvalLookup entries "sections" with
    | some (.vlist items) => items.all specEntryIsDictWithIdTitle
    | _ => false
  | _ => false

/-- A stored user template whose `sections` list holds an entry that is
not a dict with `id` and `title` (it is the number 42). -/
def badUserTemplate : UserTemplate :=
  ⟨"t1", "u@example.com", .vdict [("sections", .vlist [.vint 42])]⟩

/-- C10 counterexample: resolving the user template whose sections list
contains the non-dict entry 42 succeeds and returns the stored
structure, although the structure fails the entry-level validation the
claim asserts — `resolve_template` checks only that `sections` is a
list, never the entries. -/
theorem resolve_template_accepts_bad_entries :
    resolve_template (fun _ => .error .notFoundOrDenied) some
        (some "user") (some "t1") (some [badUserTemplate]) (some "u@example.com") =
      .ok (.vdict [("sections", .vlist [.vint 42])]) ∧
    specSectionsValidated (.vdict [("sections", .vlist [.vint 42])]) = false :=
  ⟨rfl, rfl⟩

/-- C10 (amended): a successful user-template resolution returns the
stored template structure unchanged, and the only validation performed
is that the structure is a dict whose `sections` key holds a list — the
entries of that list are not validated at all (in particular they need
not be dicts with `id` and `title`). -/
theorem resolve_template_user_ok_char (get_system_template : String → Except TemplErr PyVal)
    (parseUUID : String → Option String) (r em : String) (store : List UserTemplate)
    (v : PyVal)
    (h : resolve_template get_system_template parseUUID (some "user") (some r)
        (some store) (some em) = .ok v) :
    ∃ template_id user_template,
      parseUUID r = some template_id ∧
      store.find? (fun t => t.id == template_id && t.user_email == em) =
        some user_template ∧
      v = user_template.template_structure ∧
      ∃ entries items, v = .vdict entries ∧
        pyvalLookup entries "sections" = some (.vlist items) := by
  rw [resolve_template] at h
  simp only [reduceCtorEq, and_false, if_false, Option.some.injEq] at h
  rw [if_neg (by simp)] at h
  by_cases hr : r = ""
  · rw [if_pos hr] at h
    cases h
  · rw [if_neg hr] at h
    rw [if_neg (by simp)] at h
    by_cases hem : em = ""
    · rw [if_pos hem] at h
      cases h
    · rw [if_neg hem] at h
      split at h
      · cases h
      · rename_i template_id hp
        split at h
        · cases h
        · rename_i user_template hf
          split at h
          · rename_i entries hstruct
            split at h
            · cases h
            · rename_i items hsec
              cases h
              exact ⟨template_id, user_template, hp, hf, hstruct.symm,
                entries, items, rfl, hsec⟩
            · cases h
          · cases h

/-- A stored user template that passes the resolver's shape checks. -/
def goodUserTemplate : UserTemplate :=
  ⟨"t2", "u@example.com",
    .vdict [("sections", .vlist [.vdict [("id", .vstr "1"), ("title", .vstr "T")]])]⟩

/-- Witness for C10 (amended) at a concrete input. -/
theorem resolve_template_user_ok_char_witness :
    ∃ template_id user_template,
      some "t2" = some template_id ∧
      List.find? (fun t => t.id == template_id && t.user_email == "u@example.com")
        [goodUserTemplate] = some user_template ∧
      goodUserTemplate.template_structure = user_template.template_structure ∧
      ∃ entries items, goodUserTemplate.template_structure = .vdict entries ∧
        pyvalLookup entries "sections" = some (.vlist items) :=
  resolve_template_user_ok_char (fun _ => .error .notFoundOrDenied) some "t2"
    "u@example.com" [goodUserTemplate] goodUserTemplate.template_structure rfl

/-! The chat instruction parsers (`_parse_section_changes_enhanced`,
`_parse_section_changes`).  The regular expressions of the source are
transcribed as positional matchers over the message (a `List Char`);
`finditer` is the standard left-to-right non-overlapping scan.  Greedy
and lazy quantifiers are resolved exactly as the Python engine does:
where adjacent character classes are disjoint the match is forced, and
the remaining genuine choice points are enumerated in the engine's
backtracking order (documented at each matcher). -/

/-- Slice `s[i:j]`. -/
def sub (s : PyStr) (i j : Nat) : PyStr := (s.drop i).take (j - i)

/-- End of the maximal run of characters in class `cls` starting at `i`
(the position reached by a greedy `cls*`). -/
def runEnd (cls : Char → Bool) (s : PyStr) (i : Nat) : Nat :=
  i + ((s.drop i).takeWhile cls).length

/-- Python `str.lower()` on the ASCII letters and the German umlauts
used by this code. -/
def pyLower (c : Char) : Char :=
  if 'A' ≤ c ∧ c ≤ 'Z' then Char.ofNat (c.toNat + 32)
  else if c = 'Ä' then 'ä' else if c = 'Ö' then 'ö' else if c = 'Ü' then 'ü' else c

/-- Case-insensitive literal match of `lit` (given lowercase) at `i`. -/
def ciPrefix (lit : PyStr) (s : PyStr) (i : Nat) : Bool :=
  (sub s i (i + lit.length)).map pyLower == lit

def isAsciiDigit (c : Char) : Bool := '0' ≤ c && c ≤ '9'

/-- `[\d.,]` -/
def isDigitDotComma (c : Char) : Bool := isAsciiDigit c || c = '.' || c = ','

/-- `[\d.]` -/
def isDigitDot (c : Char) : Bool := isAsciiDigit c || c = '.'

/-- `[\d.\s,]` -/
def isDigitDotCommaWs (c : Char) : Bool := isDigitDotComma c || isPySpace c

/-- `[A-Za-zÄÖÜäöüß]` -/
def letterDE (c : Char) : Bool :=
  ('A' ≤ c && c ≤ 'Z') || ('a' ≤ c && c ≤ 'z') ||
  c = 'Ä' || c = 'Ö' || c = 'Ü' || c = 'ä' || c = 'ö' || c = 'ü' || c = 'ß'

/-- `[A-Za-zÄÖÜäöüß\s]` -/
def letterDEWs (c : Char) : Bool := letterDE c || isPySpace c

/-- `[A-ZÄÖÜ]` under `re.IGNORECASE`. -/
def upperDEI (c : Char) : Bool :=
  ('A' ≤ c && c ≤ 'Z') || ('a' ≤ c && c ≤ 'z') ||
  c = 'Ä' || c = 'Ö' || c = 'Ü' || c = 'ä' || c = 'ö' || c = 'ü'

/-- `[a-zäöüß]` under `re.IGNORECASE`. -/
def lowerDEI (c : Char) : Bool :=
  ('a' ≤ c && c ≤ 'z') || ('A' ≤ c && c ≤ 'Z') ||
  c = 'ä' || c = 'ö' || c = 'ü' || c = 'Ä' || c = 'Ö' || c = 'Ü' || c = 'ß'

/-- One `finditer` match: start, end, and the captured groups. -/
structure ReMatch (γ : Type) where
  mstart : Nat
  mend : Nat
  groups : γ
deriving DecidableEq, Repr

/-- `pattern.finditer(message)`: left-to-right scan; after a match the
scan resumes at its end (every pattern below consumes at least one
character, so the end is always past the start); fuel `len + 1` covers
every position of the string. -/
def finditerGo {γ : Type} (matchAt : Nat → Option (Nat × γ)) : Nat → Nat → List (ReMatch γ)
  | _, 0 => []
  | i, fuel + 1 =>
    match matchAt i with
    | some (e, g) => ⟨i, e, g⟩ :: finditerGo matchAt (if i < e then e else i + 1) fuel
    | none => finditerGo matchAt (i + 1) fuel

def finditer {γ : Type} (matchAt : Nat → Option (Nat × γ)) (len : Nat) : List (ReMatch γ) :=
  finditerGo matchAt 0 (len + 1)

/-- `(?:section|abschnitt)` (case-insensitive); the two words share no
prefix, so at most one alternative matches at a given position. -/
def matchSectionKw (s : PyStr) (i : Nat) : Option Nat :=
  if ciPrefix "section".toList s i then some (i + 7)
  else if ciPrefix "abschnitt".toList s i then some (i + 9)
  else none

/-- Enhanced pattern 1: `(?:section|abschnitt)\s+([\d.,]+)` (IGNORECASE).
`\s+` and `[\d.,]+` are forced maximal because whitespace and the id
class are disjoint. -/
def matchAtP1 (s : PyStr) (i : Nat) : Option (Nat × PyStr) :=
  match matchSectionKw s i with
  | none => none
  | some p =>
    let q := runEnd isPySpace s p
    if q = p then none
    else
      let e := runEnd isDigitDotComma s q
      if e = q then none
      else some (e, sub s q e)

/-- `(?<![.,\d])`: the character before the match start (if any) is not
in the id class. -/
def lookbehindIdOk (s : PyStr) (i : Nat) : Bool :=
  match i with
  | 0 => true
  | j + 1 =>
    match s[j]? with
    | some c => !(isDigitDotComma c)
    | none => true

/-- Enhanced pattern 2: `(?<![.,\d])([\d.,]+)\s*:` (MULTILINE has no
effect, there are no anchors).  A shorter id run would leave an id
character where `:` is required, so the run is forced maximal, and the
`:` can only follow the maximal whitespace run. -/
def matchAtP2 (s : PyStr) (i : Nat) : Option (Nat × PyStr) :=
  if !(lookbehindIdOk s i) then none
  else
    let e1 := runEnd isDigitDotComma s i
    if e1 = i then none
    else
      let q := runEnd isPySpace s e1
      if s[q]? = some ':' then some (q + 1, sub s i e1) else none

/-- Enhanced pattern 3: `(?<![.,\d])([\d.,]+)\s*-\s*`; the match end
includes the whitespace after the dash. -/
def matchAtP3 (s : PyStr) (i : Nat) : Option (Nat × PyStr) :=
  if !(lookbehindIdOk s i) then none
  else
    let e1 := runEnd isDigitDotComma s i
    if e1 = i then none
    else
      let q := runEnd isPySpace s e1
      if s[q]? = some '-' then
        some (runEnd isPySpace s (q + 1), sub s i e1)
      else none

/-- The action verbs of enhanced pattern 4 and original pattern 3, in
the alternation order of the source; no verb is a prefix of another, so
at most one matches at a given position. -/
def actionVerbs : List PyStr :=
  ["update".toList, "rewrite".toList, "change".toList, "modify".toList,
   "edit".toList, "überarbeite".toList, "aktualisiere".toList, "ändere".toList,
   "verbessere".toList, "erweitere".toList, "kürze".toList, "betone".toList]

def matchVerb (s : PyStr) (i : Nat) : Option Nat :=
  (actionVerbs.find? (fun v => ciPrefix v s i)).map (fun v => i + v.length)

/-- Enhanced pattern 4:
`(?:update|...|betone)\s+(?:section|abschnitt)?\s*([\d.,]+)` (IGNORECASE).
If the optional keyword matches, the id must follow it; if the id also
fails without the keyword the whole attempt fails either way, because the
id class contains no letters or whitespace. -/
def matchAtP4 (s : PyStr) (i : Nat) : Option (Nat × PyStr) :=
  match matchVerb s i with
  | none => none
  | some p =>
    let q := runEnd isPySpace s p
    if q = p then none
    else
      let q2 := match matchSectionKw s q with | some e => e | none => q
      let q3 := runEnd isPySpace s q2
      let e := runEnd isDigitDotComma s q3
      if e = q3 then none else some (e, sub s q3 e)

/-- `^` under `re.MULTILINE`: position 0 or right after a newline. -/
def lineStart (s : PyStr) (i : Nat) : Bool :=
  match i with
  | 0 => true
  | j + 1 => s[j]? = some '\n'

/-- Body of enhanced pattern 5 after the `(?:^|[\n\.])` prefix:
`\s*([\d.,]+)\s+(?![\d.,])`.  The greedy `\s+` backtracks through the
negative lookahead: every position strictly inside the whitespace run
satisfies it (whitespace is not in the id class), so the match ends at
the full run if the character after it is not in the id class, else one
character earlier if the run has length at least two. -/
def matchP5Body (s : PyStr) (i : Nat) : Option (Nat × PyStr) :=
  let q := runEnd isPySpace s i
  let e1 := runEnd isDigitDotComma s q
  if e1 = q then none
  else
    let wsEnd := runEnd isPySpace s e1
    if wsEnd = e1 then none
    else
      let okAt : Nat → Bool := fun e =>
        match s[e]? with
        | some c => !(isDigitDotComma c)
        | none => true
      if okAt wsEnd then some (wsEnd, sub s q e1)
      else if e1 + 1 < wsEnd then some (wsEnd - 1, sub s q e1)
      else none

/-- Enhanced pattern 5: `(?:^|[\n\.])\s*([\d.,]+)\s+(?![\d.,])`
(MULTILINE): the zero-width `^` alternative is preferred; the `[\n.]`
alternative consumes one character. -/
def matchAtP5 (s : PyStr) (i : Nat) : Option (Nat × PyStr) :=
  let branchB : Option (Nat × PyStr) :=
    if s[i]? = some '\n' || s[i]? = some '.' then matchP5Body s (i + 1) else none
  if lineStart s i then
    match matchP5Body s i with
    | some r => some r
    | none => branchB
  else branchB

/-- The output of the instruction parsers: one `{section_id, instruction}`
pair. -/
structure EditChange where
  section_id : PyStr
  instruction : PyStr
deriving DecidableEq, Repr

/-- One entry of the enhanced parser's `section_matches` list. -/
structure SecMatch where
  id : PyStr
  mstart : Nat
  mend : Nat
deriving DecidableEq, Repr

def natAbsDiff (a b : Nat) : Nat := if a ≤ b then b - a else a - b

/-- Deduplication `if match['id'] not in seen_ids` keeping the first
occurrence. -/
def dedupById : List SecMatch → List PyStr → List SecMatch
  | [], _ => []
  | m :: rest, seen =>
    if seen.contains m.id then dedupById rest seen
    else m :: dedupById rest (m.id :: seen)

/-- Stable sort by match start (Python `list.sort` is stable): each
element is inserted after any already-placed element with an equal or
smaller start. -/
def insertByStart (m : SecMatch) : List SecMatch → List SecMatch
  | [] => [m]
  | x :: xs => if x.mstart ≤ m.mstart then x :: insertByStart m xs else m :: x :: xs

def sortByStart (l : List SecMatch) : List SecMatch :=
  l.foldl (fun acc m => insertByStart m acc) []

/-- The instruction cleanup of the enhanced parser: strip, remove the
leading separators (`re.sub(r'^[-:\s]+', '')`), remove the trailing
separator suffix (`re.sub(r'\s*[-:\s]*$', '')`, which deletes the maximal
suffix of dashes, colons and whitespace since `\s` is contained in the
bracket class), remove trailing sentence punctuation
(`re.sub(r'[.,;]+$', '')`) and strip again. -/
def cleanupInstruction (t : PyStr) : PyStr :=
  let t := pyStrip t
  let t := t.dropWhile (fun c => c = '-' || c = ':' || isPySpace c)
  let t := t.rdropWhile (fun c => c = '-' || c = ':' || isPySpace c)
  let t := t.rdropWhile (fun c => c = '.' || c = ',' || c = ';')
  pyStrip t

/-- `re.match(r'^[\d.,]+\s*[-:\s]', t)`: a nonempty id-class run at the
start followed by a separator; since a shortened run would end on an
id-class character (which is no separator and no whitespace), this holds
exactly when the character right after the maximal run is a dash, colon
or whitespace. -/
def looksLikeSectionRef (t : PyStr) : Bool :=
  let k := (t.takeWhile isDigitDotComma).length
  1 ≤ k &&
    (match t[k]? with
     | some c => c = '-' || c = ':' || isPySpace c
     | none => false)

/-- The `section_matches` accumulation of the five id-based strategies
of `_parse_section_changes_enhanced`, with the validity filters and the
per-pattern duplicate guards of the source. -/
def numericSectionMatches (message : PyStr) (valid : List PyStr) : List SecMatch :=
  let ms1 := finditer (matchAtP1 message) message.length
  let acc := ms1.foldl (fun acc m =>
      let sid := normalize_section_id m.groups
      if valid.contains sid then acc ++ [⟨sid, m.mstart, m.mend⟩] else acc) []
  let ms2 := finditer (matchAtP2 message) message.length
  let acc := ms2.foldl (fun acc m =>
      let sid := normalize_section_id m.groups
      if valid.contains sid &&
          !(acc.any (fun x => x.id == sid && x.mstart == m.mstart)) then
        acc ++ [⟨sid, m.mstart, m.mend⟩]
      else acc) acc
  let ms3 := finditer (matchAtP3 message) message.length
  let acc := ms3.foldl (fun acc m =>
      let sid := normalize_section_id m.groups
      if valid.contains sid &&
          !(acc.any (fun x => x.id == sid && natAbsDiff x.mstart m.mstart < 5)) then
        acc ++ [⟨sid, m.mstart, m.mend⟩]
      else acc) acc
  let ms4 := finditer (matchAtP4 message) message.length
  let acc := ms4.foldl (fun acc m =>
      let sid := normalize_section_id m.groups
      if valid.contains sid &&
          !(acc.any (fun x => x.id == sid && natAbsDiff x.mstart m.mstart < 10)) then
        acc ++ [⟨sid, m.mstart, m.mend⟩]
      else acc) acc
  let ms5 := finditer (matchAtP5 message) message.length
  ms5.foldl (fun acc m =>
      let sid := normalize_section_id m.groups
      if valid.contains sid then
        if m.mend < message.length then
          let next_chars := pyStrip (sub message m.mend (m.mend + 20))
          if next_chars ≠ [] ∧ ¬(next_chars.all isDigitDotCommaWs) then
            if !(acc.any (fun x => x.id == sid && natAbsDiff x.mstart m.mstart < 5)) then
              acc ++ [⟨sid, m.mstart, m.mend⟩]
            else acc
          else acc
        else acc
      else acc) acc

/-- Instruction extraction of the enhanced parser: the slice between a
match's end and the next match's start (or the message end), cleaned up;
a change is kept when the instruction has more than two characters and
is not itself a bare section reference. -/
def extractChanges (message : PyStr) : List SecMatch → List EditChange
  | [] => []
  | m :: rest =>
    let instruction_end := match rest with
      | [] => message.length
      | m2 :: _ => m2.mstart
    let t := cleanupInstruction (sub message m.mend instruction_end)
    (if t ≠ [] ∧ t.length > 2 ∧ ¬(looksLikeSectionRef t = true) then
      [⟨m.id, t⟩] else []) ++ extractChanges message rest

/-! Title-based strategies.  `_find_section_by_title(title, sections,
threshold=0.8)` is abstracted as the oracle `fbt` (its `difflib`
similarity scoring is outside the claims settled here, which never
reach a title match); `hasSections` is the truthiness of the `sections`
argument guarding these strategies. -/

/-- Lookahead `[\d.]+\s*:`: a shortened id run would end on an id
character where `:` or whitespace is required, so only the maximal run
can match. -/
def lkIdColon (s : PyStr) (r : Nat) : Bool :=
  let k := runEnd isDigitDot s r
  decide (r < k) && (s[runEnd isPySpace s k]? == some ':')

/-- Lookahead `[A-Za-zÄÖÜäöüß][A-Za-zÄÖÜäöüß\s]{2,40}?\s*:` (existence
over all repetition counts). -/
def lkLetterColon (s : PyStr) (r : Nat) : Bool :=
  (match s[r]? with | some c => letterDE c | none => false) &&
  ((List.range 39).any fun j =>
    let k := j + 2
    decide (r + 1 + k ≤ s.length) && (sub s (r + 1) (r + 1 + k)).all letterDEWs &&
      (s[runEnd isPySpace s (r + 1 + k)]? == some ':'))

/-- Lookahead of the enhanced title-colon pattern:
`(?=\n|$|[\d.]+\s*:|[A-Za-zÄÖÜäöüß][A-Za-zÄÖÜäöüß\s]{2,40}?\s*:)`. -/
def lkTitleColonEnh (s : PyStr) (r : Nat) : Bool :=
  (s[r]? == some '\n') || decide (r = s.length) || lkIdColon s r || lkLetterColon s r

/-- Lookahead `[\d.]+\s*[-:]`. -/
def lkIdDashColon (s : PyStr) (r : Nat) : Bool :=
  let k := runEnd isDigitDot s r
  decide (r < k) &&
    (match s[runEnd isPySpace s k]? with
     | some c => c = '-' || c = ':'
     | none => false)

/-- Lookahead of both title-dash patterns:
`(?=\n|$|[\d.]+\s*[-:]|section|abschnitt)`. -/
def lkTitleDash (s : PyStr) (r : Nat) : Bool :=
  (s[r]? == some '\n') || decide (r = s.length) || lkIdDashColon s r ||
  ciPrefix "section".toList s r || ciPrefix "abschnitt".toList s r

/-- Lookahead of the original title-colon pattern:
`(?=\n|$|[\d.]+\s*:|section|abschnitt)`. -/
def lkTitleColonOrig (s : PyStr) (r : Nat) : Bool :=
  (s[r]? == some '\n') || decide (r = s.length) || lkIdColon s r ||
  ciPrefix "section".toList s r || ciPrefix "abschnitt".toList s r

/-- Title pattern
`([A-Za-zÄÖÜäöüß][A-Za-zÄÖÜäöüß\s]{2,40}?]\s*<sep>\s*(.+?)(?=<lookahead>)`
with `<sep>` a colon or dash.  Backtracking order of the engine: the
lazy `{2,40}?` tries smaller counts first; the `\s*` before the
separator is forced (a shorter run ends on whitespace where the
separator is required); the `\s*` after the separator is greedy and
backtracks towards the separator; the lazy `(.+?)` (dots exclude the
newline) grows until the lookahead holds. -/
def matchTitleSepAt (sepChar : Char) (lookahead : PyStr → Nat → Bool)
    (s : PyStr) (i : Nat) : Option (Nat × (PyStr × PyStr)) :=
  match s[i]? with
  | none => none
  | some c0 =>
    if !(letterDE c0) then none
    else
      ((List.range 39).map (· + 2)).findSome? fun k =>
        if decide (i + 1 + k ≤ s.length) && (sub s (i + 1) (i + 1 + k)).all letterDEWs then
          let g1End := i + 1 + k
          let wsEnd := runEnd isPySpace s g1End
          if s[wsEnd]? == some sepChar then
            let afterSep := wsEnd + 1
            let ws2End := runEnd isPySpace s afterSep
            ((List.range (ws2End - afterSep + 1)).map (fun j => ws2End - j)).findSome?
              fun g2Start =>
                let maxDot := runEnd (fun c => c != '\n') s g2Start - g2Start
                ((List.range maxDot).map (· + 1)).findSome? fun em =>
                  if lookahead s (g2Start + em) then
                    some (g2Start + em, (sub s i g1End, sub s g2Start (g2Start + em)))
                  else none
          else none
        else none

/-- Lookahead of the standalone-title pattern:
`(?=\n|$|section|abschnitt|[\d.]+\s*[:])`. -/
def lkStandalone (s : PyStr) (r : Nat) : Bool :=
  (s[r]? == some '\n') || decide (r = s.length) ||
  ciPrefix "section".toList s r || ciPrefix "abschnitt".toList s r || lkIdColon s r

/-- Standalone-title pattern
`^([A-ZÄÖÜ][a-zäöüß]+(?:\s+[A-ZÄÖÜ][a-zäöüß]+){0,3})\s+(.+?)(?=...)`
(MULTILINE, IGNORECASE).  The letter runs and the whitespace inside the
repetition are forced maximal (each is followed by a class disjoint from
it); the greedy `{0,3}` tries the most repetitions first, the greedy
`\s+` backtracks towards its minimum of one, and the lazy `(.+?)` grows
until the lookahead holds. -/
def matchStandaloneTitleAt (s : PyStr) (i : Nat) : Option (Nat × (PyStr × PyStr)) :=
  if !(lineStart s i) then none
  else
    match s[i]? with
    | none => none
    | some c0 =>
      if !(upperDEI c0) then none
      else
        let w1End := runEnd lowerDEI s (i + 1)
        if w1End = i + 1 then none
        else
          let step : Nat → Option Nat := fun e =>
            let wq := runEnd isPySpace s e
            if wq = e then none
            else
              match s[wq]? with
              | some cu =>
                if upperDEI cu then
                  let le := runEnd lowerDEI s (wq + 1)
                  if le = wq + 1 then none else some le
                else none
              | none => none
          let cands : List Nat :=
            match step w1End with
            | none => [w1End]
            | some e1 =>
              match step e1 with
              | none => [e1, w1End]
              | some e2 =>
                match step e2 with
                | none => [e2, e1, w1End]
                | some e3 => [e3, e2, e1, w1End]
          cands.findSome? fun g1End =>
            let wsMax := runEnd isPySpace s g1End
            if wsMax = g1End then none
            else
              ((List.range (wsMax - g1End)).map (fun j => wsMax - j)).findSome?
                fun g2Start =>
                  let maxDot := runEnd (fun c => c != '\n') s g2Start - g2Start
                  ((List.range maxDot).map (· + 1)).findSome? fun em =>
                    if lkStandalone s (g2Start + em) then
                      some (g2Start + em, (sub s i g1End, sub s g2Start (g2Start + em)))
                    else none

/-- The acceptance test shared by the title strategies: resolve the
stripped title through `_find_section_by_title`, require a valid id and
an instruction longer than two characters. -/
def titleAccept (fbt : PyStr → Option PyStr) (valid : List PyStr) (g1 g2 : PyStr) :
    Option EditChange :=
  let potential_title := pyStrip g1
  let instruction := pyStrip g2
  match fbt potential_title with
  | some sid =>
    if valid.contains sid ∧ instruction ≠ [] ∧ instruction.length > 2 then
      some ⟨sid, instruction⟩
    else none
  | none => none

/-- `message[:match.start()] + message[match.end():]`. -/
def removeSpan (s : PyStr) (a b : Nat) : PyStr := s.take a ++ s.drop b

def firstTitleHit (fbt : PyStr → Option PyStr) (valid : List PyStr)
    (ms : List (ReMatch (PyStr × PyStr))) : Option (EditChange × Nat × Nat) :=
  ms.findSome? fun m =>
    (titleAccept fbt valid m.groups.1 m.groups.2).map fun c => (c, m.mstart, m.mend)

/-- The title phase shared by both parsers (they differ only in the
group-2 lookaheads): try the colon pattern's matches in order and accept
the first resolvable one, removing its span from the message; otherwise
the dash pattern likewise; otherwise the standalone pattern (which does
not modify the message, and skips a title that is a bare number). -/
def titlePhase (fbt : PyStr → Option PyStr) (colonLk dashLk : PyStr → Nat → Bool)
    (message : PyStr) (valid : List PyStr) : List EditChange × PyStr :=
  let colonMatches := finditer (matchTitleSepAt ':' colonLk message) message.length
  match firstTitleHit fbt valid colonMatches with
  | some (c, a, b) => ([c], removeSpan message a b)
  | none =>
    let dashMatches := finditer (matchTitleSepAt '-' dashLk message) message.length
    match firstTitleHit fbt valid dashMatches with
    | some (c, a, b) => ([c], removeSpan message a b)
    | none =>
      let sMatches := finditer (matchStandaloneTitleAt message) message.length
      let hit := sMatches.findSome? fun m =>
        let potential_title := pyStrip m.groups.1
        if potential_title ≠ [] ∧ potential_title.all isDigitDotComma then none
        else titleAccept fbt valid m.groups.1 m.groups.2
      match hit with
      | some c => ([c], message)
      | none => ([], message)

/-- `_parse_section_changes_enhanced(user_message, valid_section_ids,
sections)` (documents.py): strip the message, run the title strategies
(only when sections were provided), then collect the id-based strategy
matches on the (possibly shortened) message, deduplicate them by id
keeping the first, sort them by position, and cut the instruction of
each id out of the message. -/
def parse_section_changes_enhanced (fbt : PyStr → Option PyStr) (hasSections : Bool)
    (user_message : PyStr) (valid_section_ids : List PyStr) : List EditChange :=
  let message := pyStrip user_message
  let state :=
    if hasSections then
      titlePhase fbt lkTitleColonEnh lkTitleDash message valid_section_ids
    else ([], message)
  let changes := state.1
  let message := state.2
  let unique := sortByStart (dedupById (numericSectionMatches message valid_section_ids) [])
  changes ++ extractChanges message unique

/-! The original (stricter) parser `_parse_section_changes`. -/

/-- Lookahead of original pattern 1:
`(?=(?:section|abschnitt)\s+[\d.,]+|$)`. -/
def lkOrigP1 (s : PyStr) (r : Nat) : Bool :=
  decide (r = s.length) ||
  (match matchSectionKw s r with
   | some p =>
     let q := runEnd isPySpace s p
     decide (p < q) && decide (q < runEnd isDigitDotComma s q)
   | none => false)

/-- Lookahead of original pattern 2: `(?=\n|$|[\d.,]+\s*:+)` (`$` under
MULTILINE matches at the end and before every newline, both covered by
the first two alternatives). -/
def lkOrigP2 (s : PyStr) (r : Nat) : Bool :=
  (s[r]? == some '\n') || decide (r = s.length) ||
  (let k := runEnd isDigitDotComma s r
   decide (r < k) && (s[runEnd isPySpace s k]? == some ':'))

/-- The `\s*:+\s*(.+?)(?=lk)` tail shared by original patterns 1 and 2,
starting right after the id group at `e1`.  The `\s*` in front of the
colons is forced maximal (a shorter run ends on whitespace where a colon
is required); the greedy `:+` and the greedy second `\s*` backtrack
downwards while the lazy group (DOTALL, so dots match anything) grows
until the lookahead holds. -/
def matchColonsTail (lk : PyStr → Nat → Bool) (s : PyStr) (e1 : Nat) :
    Option (Nat × PyStr) :=
  let w1 := runEnd isPySpace s e1
  let cEnd := runEnd (fun c => c == ':') s w1
  if cEnd = w1 then none
  else
    ((List.range (cEnd - w1)).map (fun j => cEnd - j)).findSome? fun colEnd =>
      let ws2 := runEnd isPySpace s colEnd
      ((List.range (ws2 - colEnd + 1)).map (fun j => ws2 - j)).findSome? fun g2Start =>
        ((List.range (s.length - g2Start)).map (· + 1)).findSome? fun em =>
          if lk s (g2Start + em) then some (g2Start + em, sub s g2Start (g2Start + em))
          else none

/-- Original pattern 1:
`(?:section|abschnitt)\s+([\d.,]+)\s*:+\s*(.+?)(?=(?:section|abschnitt)\s+[\d.,]+|$)`
(IGNORECASE, DOTALL). -/
def matchAtOrigP1 (s : PyStr) (i : Nat) : Option (Nat × (PyStr × PyStr)) :=
  match matchSectionKw s i with
  | none => none
  | some p =>
    let q := runEnd isPySpace s p
    if q = p then none
    else
      let e1 := runEnd isDigitDotComma s q
      if e1 = q then none
      else
        (matchColonsTail lkOrigP1 s e1).map fun r => (r.1, (sub s q e1, r.2))

/-- Original pattern 2: `^([\d.,]+)\s*:+\s*(.+?)(?=\n|$|[\d.,]+\s*:+)`
(MULTILINE, IGNORECASE, DOTALL). -/
def matchAtOrigP2 (s : PyStr) (i : Nat) : Option (Nat × (PyStr × PyStr)) :=
  if !(lineStart s i) then none
  else
    let e1 := runEnd isDigitDotComma s i
    if e1 = i then none
    else
      (matchColonsTail lkOrigP2 s e1).map fun r => (r.1, (sub s i e1, r.2))

/-- The connective keywords of original pattern 3, in alternation order;
no keyword is a prefix of another. -/
def toKeywords : List PyStr :=
  ["to".toList, "zu".toList, "mit".toList, "dass".toList, "damit".toList,
   "so dass".toList, "um".toList]

/-- Original pattern 3:
`(?:update|...|betone)\s+(?:section|abschnitt)?\s*([\d.,]+)\s+(?:to|zu|mit|dass|damit|so dass|um)\s+(.+)`
(IGNORECASE, DOTALL).  The final greedy `(.+)` runs to the end of the
message; when the whitespace run after the keyword reaches the end, the
greedy `\s+` backs off one character so the group is nonempty. -/
def matchAtOrigP3 (s : PyStr) (i : Nat) : Option (Nat × (PyStr × PyStr)) :=
  match matchVerb s i with
  | none => none
  | some p =>
    let q := runEnd isPySpace s p
    if q = p then none
    else
      let q2 := match matchSectionKw s q with | some e => e | none => q
      let q3 := runEnd isPySpace s q2
      let e1 := runEnd isDigitDotComma s q3
      if e1 = q3 then none
      else
        let w2 := runEnd isPySpace s e1
        if w2 = e1 then none
        else
          match toKeywords.find? (fun kw => ciPrefix kw s w2) with
          | none => none
          | some kw =>
            let kEnd := w2 + kw.length
            let w3 := runEnd isPySpace s kEnd
            if w3 = kEnd then none
            else if w3 < s.length then
              some (s.length, (sub s q3 e1, sub s w3 s.length))
            else if kEnd + 1 < w3 then
              some (s.length, (sub s q3 e1, sub s (w3 - 1) s.length))
            else none

/-- Original pattern 4: `(?:section|abschnitt)\s+([\d.,]+)\s+([^\n\.]+)`
(IGNORECASE).  Whitespace is inside `[^\n.]`, so when the character
after the greedy `\s+` cannot start the group, the `\s+` backs off one
character (its characters are all in the group class). -/
def matchAtOrigP4 (s : PyStr) (i : Nat) : Option (Nat × (PyStr × PyStr)) :=
  match matchSectionKw s i with
  | none => none
  | some p =>
    let q := runEnd isPySpace s p
    if q = p then none
    else
      let e1 := runEnd isDigitDotComma s q
      if e1 = q then none
      else
        let w2 := runEnd isPySpace s e1
        if w2 = e1 then none
        else
          let cls : Char → Bool := fun c => !(c = '\n' || c = '.')
          let tryAt : Nat → Option (Nat × (PyStr × PyStr)) := fun g2Start =>
            let e2 := runEnd cls s g2Start
            if g2Start < e2 then some (e2, (sub s q e1, sub s g2Start e2)) else none
          match tryAt w2 with
          | some r => some r
          | none => if e1 + 1 < w2 then tryAt (w2 - 1) else none

/-- Final `if change["section_id"] not in seen` deduplication of the
original parser, keeping the first change per id. -/
def dedupChangesById : List EditChange → List PyStr → List EditChange
  | [], _ => []
  | c :: rest, seen =>
    if seen.contains c.section_id then dedupChangesById rest seen
    else c :: dedupChangesById rest (c.section_id :: seen)

/-- `_parse_section_changes(user_message, valid_section_ids, sections)`
(documents.py): the title phase (with its own lookaheads), then the four
`findall` loops with their per-pattern guards (patterns 2 and 3 skip an
id already collected; pattern 4 runs only when nothing was found), then
the final keep-first deduplication by id. -/
def parse_section_changes (fbt : PyStr → Option PyStr) (hasSections : Bool)
    (user_message : PyStr) (valid_section_ids : List PyStr) : List EditChange :=
  let message := pyStrip user_message
  let state :=
    if hasSections then
      titlePhase fbt lkTitleColonOrig lkTitleDash message valid_section_ids
    else ([], message)
  let changes := state.1
  let message := state.2
  let m1 := finditer (matchAtOrigP1 message) message.length
  let changes := m1.foldl (fun acc m =>
      let sid := normalize_section_id m.groups.1
      let instr := pyStrip m.groups.2
      if valid_section_ids.contains sid ∧ instr ≠ [] ∧ instr.length > 3 then
        acc ++ [⟨sid, instr⟩]
      else acc) changes
  let m2 := finditer (matchAtOrigP2 message) message.length
  let changes := m2.foldl (fun acc m =>
      let sid := normalize_section_id m.groups.1
      let instr := pyStrip m.groups.2
      if valid_section_ids.contains sid ∧ instr ≠ [] ∧ instr.length > 3 ∧
          ¬(acc.any (fun c => c.section_id == sid) = true) then
        acc ++ [⟨sid, instr⟩]
      else acc) changes
  let m3 := finditer (matchAtOrigP3 message) message.length
  let changes := m3.foldl (fun acc m =>
      let sid := normalize_section_id m.groups.1
      let instr := pyStrip m.groups.2
      if valid_section_ids.contains sid ∧ instr ≠ [] ∧ instr.length > 3 ∧
          ¬(acc.any (fun c => c.section_id == sid) = true) then
        acc ++ [⟨sid, instr⟩]
      else acc) changes
  let changes :=
    if changes.isEmpty then
      let m4 := finditer (matchAtOrigP4 message) message.length
      m4.foldl (fun acc m =>
          let sid := normalize_section_id m.groups.1
          let instr := pyStrip m.groups.2
          if valid_section_ids.contains sid ∧ instr ≠ [] ∧ instr.length > 5 then
            acc ++ [⟨sid, instr⟩]
          else acc) changes
    else changes
  dedupChangesById changes []

/-! `_is_question` and the edit-path dispatch of `chat_with_document`. -/

def questionWords : List PyStr :=
  ["what".toList, "how".toList, "why".toList, "when".toList, "where".toList,
   "who".toList, "which".toList, "can".toList, "could".toList, "should".toList,
   "would".toList, "is".toList, "are".toList, "was".toList, "were".toList,
   "do".toList, "does".toList, "did".toList, "will".toList, "tell me".toList,
   "explain".toList, "describe".toList]

/-- `re.match(r'^w\s+', s)`: the word followed by one whitespace
character. -/
def reWordWs (w : PyStr) (s : PyStr) : Bool :=
  w.isPrefixOf s &&
    (match s[w.length]? with | some c => isPySpace c | none => false)

/-- `re.match(r'^w1\s+w2', s)`; the greedy `\s+` is forced maximal
because `w2` starts with a letter. -/
def reWordWsWord (w1 w2 : PyStr) (s : PyStr) : Bool :=
  w1.isPrefixOf s &&
    (let q := runEnd isPySpace s w1.length
     decide (w1.length < q) && (sub s q (q + w2.length) == w2))

/-- `_is_question(message)` (documents.py): lowercase and strip, then
test for a trailing question mark, a question word as the first
whitespace-separated token, or one of the fixed `^...` patterns. -/
def is_question (message : PyStr) : Bool :=
  let message_lower := pyStrip (message.map pyLower)
  (message_lower.getLast? == some '?') ||
  (let first_word :=
    (message_lower.dropWhile isPySpace).takeWhile (fun c => !(isPySpace c))
   questionWords.contains first_word) ||
  reWordWs "what".toList message_lower ||
  reWordWs "how".toList message_lower ||
  reWordWs "why".toList message_lower ||
  reWordWs "when".toList message_lower ||
  reWordWs "where".toList message_lower ||
  reWordWs "who".toList message_lower ||
  reWordWs "which".toList message_lower ||
  reWordWsWord "can".toList "you".toList message_lower ||
  reWordWsWord "could".toList "you".toList message_lower ||
  reWordWs "should".toList message_lower ||
  reWordWs "would".toList message_lower ||
  reWordWsWord "tell".toList "me".toList message_lower ||
  "explain".toList.isPrefixOf message_lower ||
  "describe".toList.isPrefixOf message_lower

/-- The change-determination chain of the edit path of
`chat_with_document` (documents.py): the enhanced parser first, the
original parser only if it found nothing, and otherwise one default
change targeting the first valid section id with the raw message as the
instruction (`none` models the "Document has no sections to update."
response when there is no valid id). -/
def chat_changes (fbt : PyStr → Option PyStr) (message : PyStr)
    (valid_section_ids : List PyStr) : Option (List EditChange) :=
  let changes := parse_section_changes_enhanced fbt true message valid_section_ids
  let changes :=
    if changes.isEmpty then parse_section_changes fbt true message valid_section_ids
    else changes
  if changes.isEmpty then
    match valid_section_ids with
    | [] => none
    | v :: _ => some [⟨v, message⟩]
  else some changes

inductive ChatOutcome
  | question
  | edits (changes : List EditChange)
  | noSectionsToUpdate
deriving DecidableEq, Repr

/-- The dispatch of `chat_with_document` up to the point where the edit
changes are fixed: questions take the question-answering path and touch
no section; otherwise the parser chain above determines the changes. -/
def chat_message_outcome (fbt : PyStr → Option PyStr) (message : PyStr)
    (valid_section_ids : List PyStr) : ChatOutcome :=
  if is_question message then .question
  else
    match chat_changes fbt message valid_section_ids with
    | none => .noSectionsToUpdate
    | some cs => .edits cs

/-- `needle` occurs as a contiguous substring of `hay`. -/
def containsSub (needle hay : PyStr) : Bool :=
  (List.range (hay.length + 1)).any fun i => needle.isPrefixOf (hay.drop i)

/-- When none of the three title patterns has a match in the (stripped)
message, the title phase finds nothing and leaves the message unchanged,
independently of the title-match oracle. -/
theorem titlePhase_no_matches (fbt : PyStr → Option PyStr)
    (colonLk dashLk : PyStr → Nat → Bool) (message : PyStr) (valid : List PyStr)
    (h1 : finditer (matchTitleSepAt ':' colonLk message) message.length = [])
    (h2 : finditer (matchTitleSepAt '-' dashLk message) message.length = [])
    (h3 : finditer (matchStandaloneTitleAt message) message.length = []) :
    titlePhase fbt colonLk dashLk message valid = ([], message) := by
  rw [titlePhase]
  simp only [h1, h2, h3]
  rfl

/-- In that situation the enhanced parser reduces to its id-based
strategies alone. -/
theorem parse_enhanced_no_title (fbt : PyStr → Option PyStr) (hs : Bool)
    (user_message : PyStr) (valid : List PyStr)
    (h1 : finditer (matchTitleSepAt ':' lkTitleColonEnh (pyStrip user_message))
        (pyStrip user_message).length = [])
    (h2 : finditer (matchTitleSepAt '-' lkTitleDash (pyStrip user_message))
        (pyStrip user_message).length = [])
    (h3 : finditer (matchStandaloneTitleAt (pyStrip user_message))
        (pyStrip user_message).length = []) :
    parse_section_changes_enhanced fbt hs user_message valid =
      extractChanges (pyStrip user_message)
        (sortByStart (dedupById
          (numericSectionMatches (pyStrip user_message) valid) [])) := by
  rw [parse_section_changes_enhanced]
  cases hs
  · rfl
  · simp only [titlePhase_no_matches fbt lkTitleColonEnh lkTitleDash
      (pyStrip user_message) valid h1 h2 h3]
    rfl

/-- C8: parsing `"2.1: innovative. 2.2: more technical"` with valid ids
2.1 and 2.2 yields exactly two changes, in message order, with the
instruction of each id cut off at the next id's match and cleaned of
separators and trailing punctuation — so neither instruction contains
the other section's marker.  The result is independent of the
title-match oracle and of whether sections were provided, because the
title patterns have no match in this message. -/
theorem parse_enhanced_two_changes (fbt : PyStr → Option PyStr) (hasSections : Bool) :
    parse_section_changes_enhanced fbt hasSections
        "2.1: innovative. 2.2: more technical".toList
        ["2.1".toList, "2.2".toList] =
      [⟨"2.1".toList, "innovative".toList⟩, ⟨"2.2".toList, "more technical".toList⟩] ∧
    containsSub "2.2".toList "innovative".toList = false ∧
    containsSub "2.1".toList "more technical".toList = false := by
  refine ⟨?_, by decide, by decide⟩
  rw [parse_enhanced_no_title fbt hasSections _ _ (by decide) (by decide) (by decide)]
  decide

/-- C4: for a non-question message on a document with at least one valid
section id, the edit changes are the enhanced parser's result; the
stricter original parser is consulted only when the enhanced parser
found nothing; and when both find nothing, exactly one default change is
built whose section_id is the first valid id and whose instruction is
the raw message. -/
theorem chat_edit_parser_fallback (fbt : PyStr → Option PyStr) (message : PyStr)
    (v : PyStr) (rest : List PyStr) (hq : is_question message = false) :
    chat_message_outcome fbt message (v :: rest) =
      .edits
        (let enh := parse_section_changes_enhanced fbt true message (v :: rest)
         if enh.isEmpty then
           let orig := parse_section_changes fbt true message (v :: rest)
           if orig.isEmpty then [⟨v, message⟩] else orig
         else enh) := by
  rw [chat_message_outcome, if_neg (by rw [hq]; exact Bool.false_ne_true)]
  rw [chat_changes]
  by_cases h1 : (parse_section_changes_enhanced fbt true message (v :: rest)).isEmpty
  · by_cases h2 : (parse_section_changes fbt true message (v :: rest)).isEmpty
    · simp [h1, h2]
    · simp [h1, h2]
  · simp [h1]

/-- Witness for C4: the message "xx" is not a question, neither parser
finds a change in it, and the resulting edit targets the first valid
section id with the raw message as instruction. -/
theorem chat_edit_parser_fallback_witness :
    chat_message_outcome (fun _ => none) "xx".toList ["1".toList, "2".toList] =
      .edits [⟨"1".toList, "xx".toList⟩] := by
  have h := chat_edit_parser_fallback (fun _ => none) "xx".toList "1".toList ["2".toList] rfl
  rw [h]
  rfl

end Innovo
